import Mathlib

/-!
Verification development for the josekit JOSE library core: the JWE
compact/flattened serialization engine (src/jwe.rs), the JWT layer
(src/jwt.rs), and their header/payload data models.

Shallow embedding conventions:
* JSON values (serde_json::Value) are the inductive `Json`; serde maps are
  association lists with the BTreeMap get/insert/remove interface.
* Fallible Rust code returns `Res`, which distinguishes a typed error
  (Result::Err) from a process abort (panic via unreachable!/unimplemented!).
* External collaborators (the serde_json codec, the cryptographic
  capabilities behind the JweEncrypter/JweDecrypter/JweContentEncryption/
  JweCompression traits, and the randomness source) are parameters, exactly
  as wide as their trait interface in the source.
* Bytes are naturals; `ByteList` records the u8 range where it matters.
-/

namespace Josekit

/-- JSON value, mirroring serde_json::Value as used by the library
(numbers are modelled as integers; the library only inspects them through
as_u64, which the `Json.asU64` helper reproduces). -/
inductive Json where
  | null
  | bool (b : Bool)
  | num (n : Int)
  | str (s : String)
  | arr (xs : List Json)
  | obj (m : List (String × Json))

mutual

/-- Boolean equality on JSON values (structural). -/
def Json.beq : Json → Json → Bool
  | .null, .null => true
  | .bool a, .bool b => a == b
  | .num a, .num b => a == b
  | .str a, .str b => a == b
  | .arr a, .arr b => Json.beqList a b
  | .obj a, .obj b => Json.beqObj a b
  | _, _ => false

/-- Boolean equality on JSON arrays. -/
def Json.beqList : List Json → List Json → Bool
  | [], [] => true
  | x :: xs, y :: ys => Json.beq x y && Json.beqList xs ys
  | _, _ => false

/-- Boolean equality on JSON object member lists. -/
def Json.beqObj : List (String × Json) → List (String × Json) → Bool
  | [], [] => true
  | (k1, v1) :: xs, (k2, v2) :: ys =>
    k1 == k2 && Json.beq v1 v2 && Json.beqObj xs ys
  | _, _ => false

end

/-- Claims map: serde_json::Map from claim name to value. -/
abbrev JMap := List (String × Json)

/-- Map lookup (serde Map::get). -/
def mapGet (m : JMap) (k : String) : Option Json :=
  match m with
  | [] => none
  | (k2, v) :: rest => if k2 = k then some v else mapGet rest k

/-- Map insert (serde Map::insert), replacing an existing binding in place. -/
def mapInsert (m : JMap) (k : String) (v : Json) : JMap :=
  match m with
  | [] => [(k, v)]
  | (k2, v2) :: rest =>
    if k2 = k then (k, v) :: rest else (k2, v2) :: mapInsert rest k v

/-- Map removal (serde Map::remove; a Map holds at most one binding per
key, so removing the key leaves none behind). -/
def mapRemove (m : JMap) (k : String) : JMap :=
  match m with
  | [] => []
  | (k2, v2) :: rest =>
    if k2 = k then mapRemove rest k else (k2, v2) :: mapRemove rest k

/-- Map membership (serde Map::contains_key). -/
def mapContains (m : JMap) (k : String) : Bool :=
  (mapGet m k).isSome

/-- serde_json::Number::as_u64: a numeric claim converts exactly when it is a
non-negative integer below 2^64. -/
def Json.asU64 (j : Json) : Option Nat :=
  match j with
  | .num n => if 0 ≤ n ∧ n < (2 : Int) ^ 64 then some n.toNat else none
  | _ => none

/-- Every entry of the list is a byte (fits in u8). -/
def ByteList (l : List Nat) : Prop :=
  ∀ b ∈ l, b < 256

instance (l : List Nat) : Decidable (ByteList l) := by
  unfold ByteList; infer_instance

/-- Outcome of running a fallible Rust computation: a typed error value, a
successful value, or a process abort (a reached panic site such as
unreachable! or unimplemented!). -/
inductive Res (ε : Type) (α : Type) where
  | panic (msg : String)
  | err (e : ε)
  | ok (a : α)
deriving DecidableEq

/-- Sequencing of fallible steps: errors and aborts cut the rest short. -/
def Res.bind {ε α β : Type} (x : Res ε α) (f : α → Res ε β) : Res ε β :=
  match x with
  | .panic m => .panic m
  | .err e => .err e
  | .ok a => f a

instance : Monad (Res ε) where
  pure := Res.ok
  bind := Res.bind

/-- The dynamic payload of each distinct failure message the engine can
raise (one constructor per bail! site reached by the claims). -/
inductive Emsg where
  | encrypterNotFound
  | decrypterNotFound
  | encNotRegistered (name : String)
  | encRequired
  | zipNotRegistered (name : String)
  | duplicateKey (key : String)
  | fivePartsRequired
  | algMismatch (expected actual : String)
  | algRequired
  | kidMismatch (actual : String)
  | kidRequired
  | base64Invalid
  | jsonInvalid
  | ioFailure
  | threePartsRequired
  | signaturePartNonempty
  | jwtAlgNotNone (actual : String)
  | jwtAlgNotString
  | jwtAlgMissing
  | noneAlgWithKid
  | claimMustBeString (key : String)
  | claimElemMustBeString (key : String)
  | claimMustBeStringOrArray (key : String)
  | claimMustBeU64 (key : String)
  | claimMustBeArray (key : String)
  | keyFormat
  | notYetValid (t : Nat)
  | expired (t : Nat)
  | issuedTooOld (t : Nat)
  | issuedTooNew (t : Nat)
  | audienceInvalid
  | claimInvalid (key : String)
  | claimMissing (key : String)
deriving DecidableEq

/-- The JoseError taxonomy (src error type): each variant carries the
anyhow message payload it wraps. -/
inductive JoseError where
  | invalidKeyFormat (m : Emsg)
  | invalidSignature (m : Emsg)
  | invalidClaim (m : Emsg)
  | invalidJwsFormat (m : Emsg)
  | invalidJweFormat (m : Emsg)
  | invalidJwtFormat (m : Emsg)
deriving DecidableEq

/-- Error type inside a pipeline closure: either a fresh anyhow message
(bail!) or a JoseError propagated from a callee with the question mark
operator. The closing map_err downcast distinguishes the two. -/
inductive Inner where
  | msg (m : Emsg)
  | jose (e : JoseError)
deriving DecidableEq

/-- bail! with a fresh anyhow message. -/
def bailMsg {α : Type} (m : Emsg) : Res Inner α :=
  .err (.msg m)

/-- Propagate a callee Result<_, JoseError> with the question mark operator. -/
def liftJose {α : Type} (x : Except JoseError α) : Res Inner α :=
  match x with
  | .ok a => .ok a
  | .error e => .err (.jose e)

/-- Propagate a callee io::Result with the question mark operator (the io
error is not a JoseError, so the final downcast will not recognise it). -/
def liftIo {α : Type} (x : Except Unit α) : Res Inner α :=
  match x with
  | .ok a => .ok a
  | .error _ => .err (.msg .ioFailure)

/-- Force an Option with a bail! message on None. -/
def liftOpt {α : Type} (x : Option α) (m : Emsg) : Res Inner α :=
  match x with
  | some a => .ok a
  | none => .err (.msg m)

/-- The closing map_err of a JWE pipeline: a JoseError downcast succeeds and
is passed through unchanged; any other error is wrapped as
JoseError::InvalidJweFormat. -/
def jweFunnel {α : Type} (x : Res Inner α) : Res JoseError α :=
  match x with
  | .panic m => .panic m
  | .err (.msg m) => .err (.invalidJweFormat m)
  | .err (.jose e) => .err e
  | .ok a => .ok a

/-- The closing map_err of a JWT pipeline (wraps into InvalidJwtFormat). -/
def jwtFunnel {α : Type} (x : Res Inner α) : Res JoseError α :=
  match x with
  | .panic m => .panic m
  | .err (.msg m) => .err (.invalidJwtFormat m)
  | .err (.jose e) => .err e
  | .ok a => .ok a

/-- The closing map_err of JwtPayloadValidator::validate (wraps into
InvalidClaim). -/
def claimFunnel {α : Type} (x : Res Inner α) : Res JoseError α :=
  match x with
  | .panic m => .panic m
  | .err (.msg m) => .err (.invalidClaim m)
  | .err (.jose e) => .err e
  | .ok a => .ok a

/-! ### base64url without padding (the base64 crate URL_SAFE_NO_PAD config) -/

/-- The base64url alphabet, indexed by six-bit value (input is masked so the
table is total). -/
def b64char (n : Nat) : Char :=
  let v := n % 64
  if v < 26 then Char.ofNat (65 + v)
  else if v < 52 then Char.ofNat (97 + (v - 26))
  else if v < 62 then Char.ofNat (48 + (v - 52))
  else if v = 62 then Char.ofNat 45
  else Char.ofNat 95

/-- Decode one alphabet character back to its six-bit value. -/
def b64val (c : Char) : Option Nat :=
  let n := c.toNat
  if 65 ≤ n ∧ n ≤ 90 then some (n - 65)
  else if 97 ≤ n ∧ n ≤ 122 then some (n - 97 + 26)
  else if 48 ≤ n ∧ n ≤ 57 then some (n - 48 + 52)
  else if n = 45 then some 62
  else if n = 95 then some 63
  else none

/-- base64url encoding of a byte sequence, in three-byte groups with the
standard two or three character tail and no padding. -/
def b64encode : List Nat → List Char
  | [] => []
  | [b0] => [b64char (b0 / 4), b64char (b0 % 4 * 16)]
  | [b0, b1] =>
    [b64char (b0 / 4), b64char (b0 % 4 * 16 + b1 / 16), b64char (b1 % 16 * 4)]
  | b0 :: b1 :: b2 :: rest =>
    b64char (b0 / 4) :: b64char (b0 % 4 * 16 + b1 / 16) ::
      b64char (b1 % 16 * 4 + b2 / 64) :: b64char (b2 % 64) :: b64encode rest

/-- base64url decoding: four-character groups with a strict two or three
character tail (trailing bits must be zero, as the base64 crate enforces);
a length of 1 mod 4 is invalid. -/
def b64decode : List Char → Option (List Nat)
  | [] => some []
  | [c0, c1] =>
    match b64val c0, b64val c1 with
    | some v0, some v1 =>
      if v1 % 16 = 0 then some [v0 * 4 + v1 / 16] else none
    | _, _ => none
  | [c0, c1, c2] =>
    match b64val c0, b64val c1, b64val c2 with
    | some v0, some v1, some v2 =>
      if v2 % 4 = 0 then some [v0 * 4 + v1 / 16, v1 % 16 * 16 + v2 / 4]
      else none
    | _, _, _ => none
  | c0 :: c1 :: c2 :: c3 :: rest =>
    match b64val c0, b64val c1, b64val c2, b64val c3, b64decode rest with
    | some v0, some v1, some v2, some v3, some bs =>
      some ((v0 * 4 + v1 / 16) :: (v1 % 16 * 16 + v2 / 4) :: (v2 % 4 * 64 + v3) :: bs)
    | _, _, _, _, _ => none
  | _ => none

/-- base64url encoding as a Lean string (base64::encode_config). -/
def b64encodeStr (bs : List Nat) : String :=
  String.mk (b64encode bs)

/-- base64url decoding of a Lean string (base64::decode_config). -/
def b64decodeStr (s : String) : Option (List Nat) :=
  b64decode s.data

/-! ### Splitting a wire string on the period separator -/

/-- str::split on the period character: always returns one part more than
the number of separators, and empty parts are kept. -/
def splitDot : List Char → List (List Char)
  | [] => [[]]
  | c :: rest =>
    if c = '.' then [] :: splitDot rest
    else
      match splitDot rest with
      | [] => [[c]]
      | p :: ps => (c :: p) :: ps

/-- Join parts with the period separator (how compact serialization builds
its output). -/
def joinDot : List (List Char) → List Char
  | [] => []
  | [p] => p
  | p :: ps => p ++ '.' :: joinDot ps

/-! ### The header data model (JweHeader, with its dual raw/typed storage) -/

/-- Modelled from the spec: a JWK is a JSON object key representation
(src/jwk is absent from the sources; only its interface is used here). -/
structure Jwk where
  map : JMap

/-- Modelled from the spec: decoding a JSON object as a key requires the
kty member naming the key type; the claims object is retained as is. -/
def Jwk.fromMap (m : JMap) : Except JoseError Jwk :=
  match mapGet m "kty" with
  | some (.str _) => .ok ⟨m⟩
  | _ => .error (.invalidKeyFormat .keyFormat)

/-- Modelled from the spec: util::SourceValue, the decoded native
representation cached for reserved claims (binary blob, list of strings,
embedded key, or an epoch-second time for the JWT payload). -/
inductive SourceValue where
  | bytes (bs : List Nat)
  | bytesArray (bss : List (List Nat))
  | stringArray (ss : List String)
  | jwk (j : Jwk)
  | systemTime (t : Nat)

/-- The typed-source cache: a HashMap from reserved claim name to decoded
value (association-list interface; HashMap iteration order is never
observed by the embedded code). -/
abbrev SMap := List (String × SourceValue)

/-- Source-cache lookup. -/
def sGet (m : SMap) (k : String) : Option SourceValue :=
  match m with
  | [] => none
  | (k2, v) :: rest => if k2 = k then some v else sGet rest k

/-- Source-cache insert, replacing an existing binding. -/
def sInsert (m : SMap) (k : String) (v : SourceValue) : SMap :=
  match m with
  | [] => [(k, v)]
  | (k2, v2) :: rest =>
    if k2 = k then (k, v) :: rest else (k2, v2) :: sInsert rest k v

/-- Source-cache removal. -/
def sRemove (m : SMap) (k : String) : SMap :=
  match m with
  | [] => []
  | (k2, v2) :: rest =>
    if k2 = k then sRemove rest k else (k2, v2) :: sRemove rest k

/-- JweHeader: the raw JSON claims map together with the typed-source
cache for reserved claims. -/
structure JweHeader where
  claims : JMap
  sources : SMap

/-- JweHeader::new. -/
def JweHeader.new : JweHeader :=
  ⟨[], []⟩

/-- JweHeader::from_map: wraps a parsed claims map; no validation is
performed and the typed-source cache starts empty (the Rust function
always returns Ok). -/
def JweHeader.fromMap (m : JMap) : JweHeader :=
  ⟨m, []⟩

/-- JoseHeader::claim (trait accessor: raw claims lookup). -/
def JweHeader.claim (h : JweHeader) (k : String) : Option Json :=
  mapGet h.claims k

/-- Modelled from the spec: the JoseHeader trait accessor for the alg
claim (jose.rs is absent from the sources); it mirrors the in-source
string accessors that return None for an absent or non-string claim,
per the reserved-claim contract alg must be a string. -/
def JweHeader.algorithm (h : JweHeader) : Option String :=
  match mapGet h.claims "alg" with
  | some (.str v) => some v
  | _ => none

/-- JweHeader::key_id (returns None on an absent or non-string kid). -/
def JweHeader.keyId (h : JweHeader) : Option String :=
  match mapGet h.claims "kid" with
  | some (.str v) => some v
  | _ => none

/-- JweHeader::token_type. -/
def JweHeader.tokenType (h : JweHeader) : Option String :=
  match mapGet h.claims "typ" with
  | some (.str v) => some v
  | _ => none

/-- JweHeader::content_encryption: the enc accessor reads the raw claim
and hits an unreachable! abort when the stored value is not a string. -/
def JweHeader.contentEncryption (h : JweHeader) : Res Inner (Option String) :=
  match mapGet h.claims "enc" with
  | some (.str v) => .ok (some v)
  | none => .ok none
  | some _ => .panic "internal error: entered unreachable code"

/-- JweHeader::compression: the zip accessor, with the same unreachable!
abort on a non-string value. -/
def JweHeader.compression (h : JweHeader) : Res Inner (Option String) :=
  match mapGet h.claims "zip" with
  | some (.str v) => .ok (some v)
  | none => .ok none
  | some _ => .panic "internal error: entered unreachable code"

/-- JweHeader::critical: reads only the typed-source cache; an unexpected
cache variant is an unreachable! abort. -/
def JweHeader.critical (h : JweHeader) : Res Inner (Option (List String)) :=
  match sGet h.sources "crit" with
  | some (.stringArray v) => .ok (some v)
  | none => .ok none
  | some _ => .panic "internal error: entered unreachable code"

/-- JweHeader::jwk: typed-cache accessor for the jwk claim. -/
def JweHeader.jwkClaim (h : JweHeader) : Res Inner (Option Jwk) :=
  match sGet h.sources "jwk" with
  | some (.jwk v) => .ok (some v)
  | none => .ok none
  | some _ => .panic "internal error: entered unreachable code"

/-- JweHeader::x509_certificate_chain: typed-cache accessor for x5c. -/
def JweHeader.x509CertificateChain (h : JweHeader) :
    Res Inner (Option (List (List Nat))) :=
  match sGet h.sources "x5c" with
  | some (.bytesArray v) => .ok (some v)
  | none => .ok none
  | some _ => .panic "internal error: entered unreachable code"

/-- JweHeader::x509_certificate_sha1_thumbprint: typed-cache accessor for
x5t. -/
def JweHeader.x509Sha1 (h : JweHeader) : Res Inner (Option (List Nat)) :=
  match sGet h.sources "x5t" with
  | some (.bytes v) => .ok (some v)
  | none => .ok none
  | some _ => .panic "internal error: entered unreachable code"

/-- JweHeader::x509_certificate_sha256_thumbprint: typed-cache accessor
for the x5t#S256 claim. -/
def JweHeader.x509Sha256 (h : JweHeader) : Res Inner (Option (List Nat)) :=
  match sGet h.sources "x5t#S256" with
  | some (.bytes v) => .ok (some v)
  | none => .ok none
  | some _ => .panic "internal error: entered unreachable code"

/-- JweHeader::set_algorithm. -/
def JweHeader.setAlgorithm (h : JweHeader) (v : String) : JweHeader :=
  ⟨mapInsert h.claims "alg" (.str v), h.sources⟩

/-- JweHeader::set_content_encryption. -/
def JweHeader.setContentEncryption (h : JweHeader) (v : String) : JweHeader :=
  ⟨mapInsert h.claims "enc" (.str v), h.sources⟩

/-- JweHeader::set_compression. -/
def JweHeader.setCompression (h : JweHeader) (v : String) : JweHeader :=
  ⟨mapInsert h.claims "zip" (.str v), h.sources⟩

/-- JweHeader::set_jwk_set_url. -/
def JweHeader.setJwkSetUrl (h : JweHeader) (v : String) : JweHeader :=
  ⟨mapInsert h.claims "jku" (.str v), h.sources⟩

/-- JweHeader::set_x509_url. -/
def JweHeader.setX509Url (h : JweHeader) (v : String) : JweHeader :=
  ⟨mapInsert h.claims "x5u" (.str v), h.sources⟩

/-- JweHeader::set_key_id. -/
def JweHeader.setKeyId (h : JweHeader) (v : String) : JweHeader :=
  ⟨mapInsert h.claims "kid" (.str v), h.sources⟩

/-- JweHeader::set_token_type. -/
def JweHeader.setTokenType (h : JweHeader) (v : String) : JweHeader :=
  ⟨mapInsert h.claims "typ" (.str v), h.sources⟩

/-- JweHeader::set_content_type. -/
def JweHeader.setContentType (h : JweHeader) (v : String) : JweHeader :=
  ⟨mapInsert h.claims "cty" (.str v), h.sources⟩

/-- JweHeader::set_jwk: writes the raw object and the typed cache
together. -/
def JweHeader.setJwk (h : JweHeader) (j : Jwk) : JweHeader :=
  ⟨mapInsert h.claims "jwk" (.obj j.map), sInsert h.sources "jwk" (.jwk j)⟩

/-- JweHeader::set_x509_certificate_chain: raw claim is the base64url
encoding of each blob, typed cache keeps the blobs. -/
def JweHeader.setX509CertificateChain (h : JweHeader) (vals : List (List Nat)) :
    JweHeader :=
  ⟨mapInsert h.claims "x5c" (.arr (vals.map fun v => .str (b64encodeStr v))),
    sInsert h.sources "x5c" (.bytesArray vals)⟩

/-- JweHeader::set_x509_certificate_sha1_thumbprint. -/
def JweHeader.setX509Sha1 (h : JweHeader) (v : List Nat) : JweHeader :=
  ⟨mapInsert h.claims "x5t" (.str (b64encodeStr v)),
    sInsert h.sources "x5t" (.bytes v)⟩

/-- JweHeader::set_x509_certificate_sha256_thumbprint. -/
def JweHeader.setX509Sha256 (h : JweHeader) (v : List Nat) : JweHeader :=
  ⟨mapInsert h.claims "x5t#S256" (.str (b64encodeStr v)),
    sInsert h.sources "x5t#S256" (.bytes v)⟩

/-- JweHeader::set_critical: raw array of strings plus cached string
list. -/
def JweHeader.setCritical (h : JweHeader) (vals : List String) : JweHeader :=
  ⟨mapInsert h.claims "crit" (.arr (vals.map .str)),
    sInsert h.sources "crit" (.stringArray vals)⟩

/-- Helper for set_claim array branches: every element must be a string. -/
def allStrings : List Json → Option (List String)
  | [] => some []
  | .str s :: rest =>
    match allStrings rest with
    | some ss => some (s :: ss)
    | none => none
  | _ :: _ => none

/-- Helper for the x5c branch of set_claim: every element must be a
base64url string, decoded to a byte blob. -/
def allB64Strings : List Json → Option (List (List Nat))
  | [] => some []
  | .str s :: rest =>
    match b64decodeStr s with
    | some bs =>
      match allB64Strings rest with
      | some bss => some (bs :: bss)
      | none => none
    | none => none
  | _ :: _ => none

/-- JweHeader::set_claim: the single generic claim-setter entry point,
validating the reserved-claim type contract and writing the raw value
and the typed cache in one step; a format error leaves the header
untouched (errors are wrapped as InvalidJweFormat directly). -/
def JweHeader.setClaim (h : JweHeader) (key : String) (value : Option Json) :
    Except JoseError JweHeader :=
  if key = "alg" ∨ key = "enc" ∨ key = "zip" ∨ key = "jku" ∨ key = "x5u" ∨
      key = "kid" ∨ key = "typ" ∨ key = "cty" then
    match value with
    | some (.str s) => .ok ⟨mapInsert h.claims key (.str s), h.sources⟩
    | none => .ok ⟨mapRemove h.claims key, h.sources⟩
    | some _ => .error (.invalidJweFormat (.claimMustBeString key))
  else if key = "jwk" then
    match value with
    | some (.obj m) =>
      match Jwk.fromMap m with
      | .ok j =>
        .ok ⟨mapInsert h.claims key (.obj m), sInsert h.sources key (.jwk j)⟩
      | .error e => .error e
    | none => .ok ⟨mapRemove h.claims key, sRemove h.sources key⟩
    | some _ => .error (.invalidJweFormat (.claimMustBeString key))
  else if key = "x5t" ∨ key = "x5t#S256" then
    match value with
    | some (.str s) =>
      match b64decodeStr s with
      | some bs =>
        .ok ⟨mapInsert h.claims key (.str s), sInsert h.sources key (.bytes bs)⟩
      | none => .error (.invalidJweFormat .base64Invalid)
    | none => .ok ⟨mapRemove h.claims key, sRemove h.sources key⟩
    | some _ => .error (.invalidJweFormat (.claimMustBeString key))
  else if key = "x5c" then
    match value with
    | some (.arr vs) =>
      match allB64Strings vs with
      | some bss =>
        .ok ⟨mapInsert h.claims key (.arr vs),
          sInsert h.sources key (.bytesArray bss)⟩
      | none => .error (.invalidJweFormat (.claimElemMustBeString key))
    | none => .ok ⟨mapRemove h.claims key, sRemove h.sources key⟩
    | some _ => .error (.invalidJweFormat (.claimMustBeArray key))
  else if key = "crit" then
    match value with
    | some (.arr vs) =>
      match allStrings vs with
      | some ss =>
        .ok ⟨mapInsert h.claims key (.arr vs),
          sInsert h.sources key (.stringArray ss)⟩
      | none => .error (.invalidJweFormat (.claimElemMustBeString key))
    | none => .ok ⟨mapRemove h.claims key, sRemove h.sources key⟩
    | some _ => .error (.invalidJweFormat (.claimMustBeArray key))
  else
    match value with
    | some v => .ok ⟨mapInsert h.claims key v, h.sources⟩
    | none => .ok ⟨mapRemove h.claims key, h.sources⟩

/-- The reserved JweHeader claims that carry a typed-source cache entry
(the claims whose typed accessors read only the cache). -/
def cachedKeys : List String :=
  ["jwk", "x5c", "x5t", "x5t#S256", "crit"]

/-- The decoding relation between a cached source value and the raw JSON
value of its reserved claim: the cache holds exactly the decoded form of
the raw value (keys off the cached set never relate). -/
def SvDecodes : String → SourceValue → Json → Prop
  | "jwk", .jwk j, .obj m => m = j.map
  | "x5c", .bytesArray bss, .arr vs => allB64Strings vs = some bss
  | "x5t", .bytes bs, .str s => b64decodeStr s = some bs
  | "x5t#S256", .bytes bs, .str s => b64decodeStr s = some bs
  | "crit", .stringArray ss, .arr vs => vs = ss.map .str
  | _, _, _ => False

/-- The dual-storage invariant of the spec: for every cached reserved
claim, the raw claims map and the typed-source cache are present
together and the cache holds the decoded raw value. -/
def JweHeader.Consistent (h : JweHeader) : Prop :=
  ∀ k ∈ cachedKeys,
    (∀ v, mapGet h.claims k = some v →
      ∃ sv, sGet h.sources k = some sv ∧ SvDecodes k sv v) ∧
    (∀ sv, sGet h.sources k = some sv →
      ∃ v, mapGet h.claims k = some v ∧ SvDecodes k sv v)

/-! ### Capability interfaces and the JWE registry context -/

/-- A JweContentEncryption capability (trait object): registered name,
key and IV lengths, and the AEAD pair over (key, iv, message, aad). -/
structure JweCenc where
  name : String
  keyLen : Nat
  ivLen : Nat
  encrypt : List Nat → List Nat → List Nat → List Nat →
    Except JoseError (List Nat × List Nat)
  decrypt : List Nat → List Nat → List Nat → List Nat → List Nat →
    Except JoseError (List Nat)

/-- A JweCompression capability (trait object): compress/decompress with
io errors. -/
structure JweComp where
  name : String
  compress : List Nat → Except Unit (List Nat)
  decompress : List Nat → Except Unit (List Nat)

/-- A JweEncrypter capability (trait object): algorithm name, optional
configured key id, and the key-production step, which may rewrite the
header (for example to stamp its own alg claim) and returns the content
encryption key with its optional wrapped form. -/
structure JweEncrypter where
  algName : String
  keyId : Option String
  encrypt : Nat → JweHeader →
    Except JoseError (JweHeader × List Nat × Option (List Nat))

/-- A JweDecrypter capability (trait object): algorithm name, optional
configured key id, and the key-unwrap step. -/
structure JweDecrypter where
  algName : String
  keyId : Option String
  decrypt : JweHeader → List Nat → Except JoseError (List Nat)

/-- JweContext: the name-keyed registries of compression and
content-encryption capabilities (the acceptable-critical set is not
consulted by the embedded operations). -/
structure JweContext where
  compressions : List (String × JweComp)
  contentEncryptions : List (String × JweCenc)

/-- JweContext::get_content_encryption. -/
def getContentEncryption (ctx : JweContext) (name : String) : Option JweCenc :=
  match ctx.contentEncryptions.find? (fun p => p.1 = name) with
  | some p => some p.2
  | none => none

/-- JweContext::get_compression. -/
def getCompression (ctx : JweContext) (name : String) : Option JweComp :=
  match ctx.compressions.find? (fun p => p.1 = name) with
  | some p => some p.2
  | none => none

/-! ### JWE compact serialization -/

/-- Resolution of the content-encryption capability from the enc claim:
required, and must be registered. -/
def resolveCenc (ctx : JweContext) (encO : Option String) : Res Inner JweCenc :=
  match encO with
  | none => bailMsg .encRequired
  | some enc =>
    match getContentEncryption ctx enc with
    | some v => .ok v
    | none => bailMsg (.encNotRegistered enc)

/-- Resolution of the optional compression capability from the zip claim:
absent is fine, present must be registered. -/
def resolveComp (ctx : JweContext) (zipO : Option String) :
    Res Inner (Option JweComp) :=
  match zipO with
  | none => .ok none
  | some zip =>
    match getCompression ctx zip with
    | some v => .ok (some v)
    | none => bailMsg (.zipNotRegistered zip)

/-- The alg enforcement of deserialize_compact: the header claim must be
present and equal the decrypter's algorithm name. -/
def algCheck (d : JweDecrypter) (algO : Option String) : Res Inner Unit :=
  match algO with
  | some v =>
    if v = d.algName then .ok () else bailMsg (.algMismatch d.algName v)
  | none => bailMsg .algRequired

/-- The kid enforcement of deserialize_compact: when the decrypter has a
configured key id, the header claim must be present and equal it. -/
def kidCheck (d : JweDecrypter) (kidO : Option String) : Res Inner Unit :=
  match d.keyId with
  | some expected =>
    match kidO with
    | some actual =>
      if expected = actual then .ok () else bailMsg (.kidMismatch actual)
    | none => bailMsg .kidRequired
  | none => .ok ()

/-- Payload compression when a capability was resolved. -/
def compressStep (compression : Option JweComp) (payload : List Nat) :
    Res Inner (List Nat) :=
  match compression with
  | some comp => liftIo (comp.compress payload)
  | none => .ok payload

/-- Content decompression when a capability was resolved. -/
def decompressStep (compression : Option JweComp) (content : List Nat) :
    Res Inner (List Nat) :=
  match compression with
  | some comp => liftIo (comp.decompress content)
  | none => .ok content

/-- The encrypted-key wire segment: base64url of the wrapped key, or
empty when the encrypter produced none. -/
def ekSegment (encKey : Option (List Nat)) : List Char :=
  match encKey with
  | some v => b64encode v
  | none => []

/-- The kid default-fill step of serialize_compact: when the header that
came back from the encrypter has no kid claim and the encrypter has a
configured key id, stamp it. -/
def kidFill (h : JweHeader) (enc : JweEncrypter) : JweHeader :=
  match mapGet h.claims "kid" with
  | none =>
    match enc.keyId with
    | some kid => h.setKeyId kid
    | none => h
  | some _ => h

/-- JweContext::serialize_compact_with_selector. `ser` stands for the
external serde_json::to_vec collaborator and `rand` for the randomness
source filling a buffer of the requested length. -/
def serializeCompactWithSelector (ctx : JweContext) (ser : JMap → List Nat)
    (rand : Nat → List Nat) (payload : List Nat) (header : JweHeader)
    (selector : JweHeader → Option JweEncrypter) : Res JoseError (List Char) :=
  jweFunnel (
    match selector header with
    | none => bailMsg .encrypterNotFound
    | some encrypter =>
      Res.bind header.contentEncryption fun encO =>
      Res.bind (resolveCenc ctx encO) fun cenc =>
      Res.bind header.compression fun zipO =>
      Res.bind (resolveComp ctx zipO) fun compression =>
      Res.bind (liftJose (encrypter.encrypt cenc.keyLen header)) fun r =>
      match r with
      | (header1, key, encryptedKey) =>
        let header2 := kidFill header1 encrypter
        let headerBytes := ser header2.claims
        Res.bind (compressStep compression payload) fun content =>
        let iv := rand cenc.ivLen
        Res.bind (liftJose (cenc.encrypt key iv content headerBytes))
          fun ctag =>
        match ctag with
        | (ciphertext, tag) =>
          .ok (joinDot [b64encode headerBytes, ekSegment encryptedKey,
            b64encode iv, b64encode ciphertext, b64encode tag]))

/-- JweContext::serialize_compact (fixed encrypter). -/
def serializeCompact (ctx : JweContext) (ser : JMap → List Nat)
    (rand : Nat → List Nat) (payload : List Nat) (header : JweHeader)
    (encrypter : JweEncrypter) : Res JoseError (List Char) :=
  serializeCompactWithSelector ctx ser rand payload header (fun _ => some encrypter)

/-! ### JWE compact deserialization -/

/-- The decrypting tail of deserialize_compact_with_selector after the
alg/kid checks: decode the wrapped key, key unwrap, decode iv, ciphertext
and tag, AEAD decrypt over the transmitted header bytes as AAD, and
decompress. -/
def deserializeCoreTail (ek64 iv64 ct64 tag64 : List Char)
    (headerBytes : List Nat) (header : JweHeader)
    (decrypter : JweDecrypter) (cenc : JweCenc)
    (compression : Option JweComp) : Res Inner (List Nat × JweHeader) :=
  Res.bind (liftOpt (b64decode ek64) .base64Invalid) fun encryptedKey =>
  Res.bind (liftJose (decrypter.decrypt header encryptedKey)) fun key =>
  Res.bind (liftOpt (b64decode iv64) .base64Invalid) fun iv =>
  Res.bind (liftOpt (b64decode ct64) .base64Invalid) fun ciphertext =>
  Res.bind (liftOpt (b64decode tag64) .base64Invalid) fun tag =>
  Res.bind (liftJose (cenc.decrypt key iv ciphertext headerBytes tag))
    fun content =>
  Res.bind (decompressStep compression content) fun content2 =>
  .ok (content2, header)

/-- The tail of deserialize_compact_with_selector after the header segment
is decoded and parsed: decrypter selection, registry resolution from the
parsed header, alg/kid enforcement, then the decrypting tail. -/
def deserializeCore (ctx : JweContext) (ek64 iv64 ct64 tag64 : List Char)
    (headerBytes : List Nat) (header : JweHeader)
    (selector : JweHeader → Except JoseError (Option JweDecrypter)) :
    Res Inner (List Nat × JweHeader) :=
  Res.bind (liftJose (selector header)) fun dOpt =>
  match dOpt with
  | none => bailMsg .decrypterNotFound
  | some decrypter =>
    Res.bind header.contentEncryption fun encO =>
    Res.bind (resolveCenc ctx encO) fun cenc =>
    Res.bind header.compression fun zipO =>
    Res.bind (resolveComp ctx zipO) fun compression =>
    Res.bind (algCheck decrypter header.algorithm) fun _ =>
    Res.bind (kidCheck decrypter header.keyId) fun _ =>
    deserializeCoreTail ek64 iv64 ct64 tag64 headerBytes header decrypter
      cenc compression

/-- JweContext::deserialize_compact_with_selector. `par` stands for the
external serde_json::from_slice collaborator. -/
def deserializeCompactWithSelector (ctx : JweContext)
    (par : List Nat → Option JMap) (input : List Char)
    (selector : JweHeader → Except JoseError (Option JweDecrypter)) :
    Res JoseError (List Nat × JweHeader) :=
  jweFunnel (
    match splitDot input with
    | [h64, ek64, iv64, ct64, tag64] =>
      Res.bind (liftOpt (b64decode h64) .base64Invalid) fun headerBytes =>
      Res.bind (liftOpt (par headerBytes) .jsonInvalid) fun headerMap =>
      deserializeCore ctx ek64 iv64 ct64 tag64 headerBytes
        (JweHeader.fromMap headerMap) selector
    | _ => bailMsg .fivePartsRequired)

/-- JweContext::deserialize_compact (fixed decrypter: the selector always
answers with it and never fails). -/
def deserializeCompact (ctx : JweContext) (par : List Nat → Option JMap)
    (input : List Char) (decrypter : JweDecrypter) :
    Res JoseError (List Nat × JweHeader) :=
  deserializeCompactWithSelector ctx par input (fun _ => .ok (some decrypter))

/-- JweContext::deserialize_json_with_selector: the body is
unimplemented!, which aborts before the closing map_err can wrap
anything. -/
def deserializeJsonWithSelector (_ctx : JweContext) (_input : List Char)
    (_selector : JweHeader → Except JoseError (Option JweDecrypter)) :
    Res JoseError (List Nat × JweHeader) :=
  .panic "not implemented: JWE is not supported yet."

/-! ### JWE flattened JSON serialization -/

/-- The merge loop of serialize_flattened_json_with_selector: fold one
claim set into the accumulated map, failing on any claim name already
present. -/
def mergeClaims (merged : JMap) : JMap → Res Inner JMap
  | [] => .ok merged
  | (k, v) :: rest =>
    if mapContains merged k then bailMsg (.duplicateKey k)
    else mergeClaims (mapInsert merged k v) rest

/-- The tail of serialize_flattened_json_with_selector after the header
merge: encrypter selection on the merged header, registry resolution,
compression, key production on the protected header, kid default-fill
(tested on the merged claims, written to the protected header),
protected-bytes AAD, and the flattened JSON output object. -/
def serializeFlattenedRest (ctx : JweContext) (ser : JMap → List Nat)
    (serStr : JMap → List Char) (rand : Nat → List Nat) (payload : List Nat)
    (unprotectedOpt headerOpt : Option JweHeader) (protectedH : JweHeader)
    (merged2 : JMap) (selector : JweHeader → Option JweEncrypter) :
    Res Inner (List Char) :=
  match selector (JweHeader.fromMap merged2) with
  | none => bailMsg .encrypterNotFound
  | some encrypter =>
    Res.bind (JweHeader.fromMap merged2).contentEncryption fun encO =>
    Res.bind (resolveCenc ctx encO) fun cenc =>
    Res.bind (JweHeader.fromMap merged2).compression fun zipO =>
    Res.bind (resolveComp ctx zipO) fun compression =>
    Res.bind (compressStep compression payload) fun content =>
    Res.bind (liftJose (encrypter.encrypt cenc.keyLen protectedH)) fun r =>
    match r with
    | (protected1, key, encryptedKey) =>
      let protected2 :=
        match mapGet merged2 "kid" with
        | none =>
          match encrypter.keyId with
          | some kid => protected1.setKeyId kid
          | none => protected1
        | some _ => protected1
      let protectedBytes := ser protected2.claims
      let iv := rand cenc.ivLen
      Res.bind (liftJose (cenc.encrypt key iv content protectedBytes))
        fun ctag =>
      match ctag with
      | (ciphertext, tag) =>
        .ok ((String.data "\x7b\"protected\":\"") ++
          b64encode protectedBytes ++ (String.data "\"") ++
          (match unprotectedOpt with
           | some u =>
             (String.data ",\"unprotected\":") ++ serStr u.claims
           | none => []) ++
          (match headerOpt with
           | some hh => (String.data ",\"header\":") ++ serStr hh.claims
           | none => []) ++
          (String.data ",\"encrypted_key\":\"") ++ ekSegment encryptedKey ++
          (String.data "\"") ++
          (String.data ",\"aad\":\"") ++ b64encode protectedBytes ++
          (String.data "\"") ++
          (String.data ",\"iv\":\"") ++ b64encode iv ++
          (String.data "\"") ++
          (String.data ",\"ciphertext\":\"") ++ b64encode ciphertext ++
          (String.data "\"") ++
          (String.data ",\"tag\":\"") ++ b64encode tag ++
          (String.data "\"\x7d"))

/-- The claim set contributed by an optional header argument (an absent
header contributes the empty set, as JweHeader::new does for the
protected position). -/
def headerClaimsOf (o : Option JweHeader) : JMap :=
  match o with
  | some h => h.claims
  | none => []

/-- The protected header to mutate: the given one, or JweHeader::new. -/
def protectedHeaderOf (o : Option JweHeader) : JweHeader :=
  match o with
  | some v => v
  | none => JweHeader.new

/-- JweContext::serialize_flattened_json_with_selector: merge the three
claim sets, failing on any duplicated claim name, then run the tail
above. -/
def serializeFlattenedJsonWithSelector (ctx : JweContext)
    (ser : JMap → List Nat) (serStr : JMap → List Char) (rand : Nat → List Nat)
    (payload : List Nat) (protectedOpt unprotectedOpt headerOpt : Option JweHeader)
    (selector : JweHeader → Option JweEncrypter) : Res JoseError (List Char) :=
  jweFunnel (
    Res.bind
      (match unprotectedOpt with
       | some u => mergeClaims (protectedHeaderOf protectedOpt).claims u.claims
       | none => .ok (protectedHeaderOf protectedOpt).claims) fun merged1 =>
    Res.bind
      (match headerOpt with
       | some hh => mergeClaims merged1 hh.claims
       | none => .ok merged1) fun merged2 =>
    serializeFlattenedRest ctx ser serStr rand payload unprotectedOpt
      headerOpt (protectedHeaderOf protectedOpt) merged2 selector)

/-! ### JWT layer: payload, unsecured decode, and the payload validator -/

/-- Modelled from the spec: JwsHeader (jws.rs is absent from the
sources); decode_unsecured only builds one through from_map, which — as
with the JWE header — wraps the parsed claims without validation. -/
structure JwsHeader where
  claims : JMap

/-- JwsHeader::from_map. -/
def JwsHeader.fromMap (m : JMap) : JwsHeader :=
  ⟨m⟩

/-- JwtPayload: the raw claims map plus the typed-source cache for the
aud/exp/nbf/iat claims. Times are epoch seconds (Duration::from_secs). -/
structure JwtPayload where
  claims : JMap
  sources : SMap

/-- One step of the JwtPayload::from_map validation loop. -/
def jwtSourcesStep (sources : SMap) (k : String) (v : Json) :
    Except Emsg SMap :=
  if k = "iss" ∨ k = "sub" ∨ k = "jti" then
    match v with
    | .str _ => .ok sources
    | _ => .error (.claimMustBeString k)
  else if k = "aud" then
    match v with
    | .str _ => .ok sources
    | .arr vs =>
      match allStrings vs with
      | some ss => .ok (sInsert sources k (.stringArray ss))
      | none => .error (.claimElemMustBeString k)
    | _ => .error (.claimMustBeStringOrArray k)
  else if k = "exp" ∨ k = "nbf" ∨ k = "iat" then
    match v with
    | .num n =>
      match Json.asU64 (.num n) with
      | some t => .ok (sInsert sources k (.systemTime t))
      | none => .error (.claimMustBeU64 k)
    | _ => .error (.claimMustBeString k)
  else .ok sources

/-- The JwtPayload::from_map validation loop over all claims. -/
def collectJwtSources (sources : SMap) : JMap → Except Emsg SMap
  | [] => .ok sources
  | (k, v) :: rest =>
    match jwtSourcesStep sources k v with
    | .ok s2 => collectJwtSources s2 rest
    | .error e => .error e

/-- JwtPayload::from_map: validates the reserved payload claim types and
builds the typed cache (note: only the array form of aud populates it). -/
def JwtPayload.fromMap (m : JMap) : Except JoseError JwtPayload :=
  match collectJwtSources [] m with
  | .ok s => .ok ⟨m, s⟩
  | .error e => .error (.invalidJwtFormat e)

/-- JwtPayload::claim. -/
def JwtPayload.claim (p : JwtPayload) (k : String) : Option Json :=
  mapGet p.claims k

/-- JwtPayload::audience: reads only the typed cache; an unexpected cache
variant is an unreachable! abort. -/
def JwtPayload.audience (p : JwtPayload) : Res Inner (Option (List String)) :=
  match sGet p.sources "aud" with
  | some (.stringArray v) => .ok (some v)
  | none => .ok none
  | some _ => .panic "internal error: entered unreachable code"

/-- JwtPayload::expires_at (typed cache, epoch seconds). -/
def JwtPayload.expiresAt (p : JwtPayload) : Res Inner (Option Nat) :=
  match sGet p.sources "exp" with
  | some (.systemTime v) => .ok (some v)
  | none => .ok none
  | some _ => .panic "internal error: entered unreachable code"

/-- JwtPayload::not_before (typed cache, epoch seconds). -/
def JwtPayload.notBefore (p : JwtPayload) : Res Inner (Option Nat) :=
  match sGet p.sources "nbf" with
  | some (.systemTime v) => .ok (some v)
  | none => .ok none
  | some _ => .panic "internal error: entered unreachable code"

/-- JwtPayload::issued_at (typed cache, epoch seconds). -/
def JwtPayload.issuedAt (p : JwtPayload) : Res Inner (Option Nat) :=
  match sGet p.sources "iat" with
  | some (.systemTime v) => .ok (some v)
  | none => .ok none
  | some _ => .panic "internal error: entered unreachable code"

/-- JwtContext::decode_unsecured: requires three period-separated parts
with an empty third part, a header whose alg claim is exactly the string
none and which carries no kid claim, then parses header and payload. -/
def decodeUnsecured (par : List Nat → Option JMap) (input : List Char) :
    Res JoseError (JwtPayload × JwsHeader) :=
  jwtFunnel (
    match splitDot input with
    | [p0, p1, p2] =>
      Res.bind
        (if p2.length ≠ 0 then bailMsg .signaturePartNonempty else .ok ())
        fun _ =>
      Res.bind (liftOpt (b64decode p0) .base64Invalid) fun headerBytes =>
      Res.bind (liftOpt (par headerBytes) .jsonInvalid) fun headerMap =>
      Res.bind
        (match mapGet headerMap "alg" with
         | some (.str v) =>
           if v = "none" then .ok () else bailMsg (.jwtAlgNotNone v)
         | some _ => bailMsg .jwtAlgNotString
         | none => bailMsg .jwtAlgMissing) fun _ =>
      Res.bind
        (match mapGet headerMap "kid" with
         | none => .ok ()
         | some _ => bailMsg .noneAlgWithKid) fun _ =>
      let header := JwsHeader.fromMap headerMap
      Res.bind (liftOpt (b64decode p1) .base64Invalid) fun payloadBytes =>
      Res.bind (liftOpt (par payloadBytes) .jsonInvalid) fun payloadMap =>
      Res.bind (liftJose (JwtPayload.fromMap payloadMap)) fun payload =>
      .ok (payload, header)
    | _ => bailMsg .threePartsRequired)

/-- JwtPayloadValidator: base time, issued-at window, expected audience,
and exact-match claims. -/
structure JwtPayloadValidator where
  baseTime : Option Nat
  minIssuedTime : Option Nat
  maxIssuedTime : Option Nat
  audience : Option String
  claims : JMap

/-- The exact-equality claim loop of JwtPayloadValidator::validate: a
claim absent from the payload is a failure, never a vacuous pass. -/
def validateClaimsLoop (payloadClaims : JMap) : JMap → Res Inner Unit
  | [] => .ok ()
  | (k, v1) :: rest =>
    match mapGet payloadClaims k with
    | some v2 =>
      if Json.beq v1 v2 then validateClaimsLoop payloadClaims rest
      else bailMsg (.claimInvalid k)
    | none => bailMsg (.claimMissing k)

/-- The not-before rule: not yet valid when nbf is strictly after the
current time. -/
def nbfCheck (current : Nat) (nbfO : Option Nat) : Res Inner Unit :=
  match nbfO with
  | some nbf => if current < nbf then bailMsg (.notYetValid nbf) else .ok ()
  | none => .ok ()

/-- The expiry rule: expired when exp is at or before the current time
(equality counts as expired). -/
def expCheck (current : Nat) (expO : Option Nat) : Res Inner Unit :=
  match expO with
  | some e => if e ≤ current then bailMsg (.expired e) else .ok ()
  | none => .ok ()

/-- The issued-at window rule. -/
def iatCheck (minI maxI : Nat) (iatO : Option Nat) : Res Inner Unit :=
  match iatO with
  | some iat =>
    if iat < minI then bailMsg (.issuedTooOld iat)
    else if maxI < iat then bailMsg (.issuedTooNew iat)
    else .ok ()
  | none => .ok ()

/-- The audience rule: when an expected audience is configured and the
payload's typed audience cache answers, it must contain the expected
string. -/
def audCheck (vaud : Option String) (payload : JwtPayload) : Res Inner Unit :=
  match vaud with
  | some aud =>
    Res.bind payload.audience fun audsO =>
    match audsO with
    | some auds =>
      if auds.contains aud then .ok () else bailMsg .audienceInvalid
    | none => .ok ()
  | none => .ok ()

/-- JwtPayloadValidator::validate. `now` stands for SystemTime::now(),
the default for an unset base time and an unset maximum issued time. -/
def JwtPayloadValidator.validate (v : JwtPayloadValidator) (now : Nat)
    (payload : JwtPayload) : Res JoseError Unit :=
  claimFunnel (
    let currentTime := v.baseTime.getD now
    let minIssued := v.minIssuedTime.getD 0
    let maxIssued := v.maxIssuedTime.getD now
    Res.bind payload.notBefore fun nbfO =>
    Res.bind (nbfCheck currentTime nbfO) fun _ =>
    Res.bind payload.expiresAt fun expO =>
    Res.bind (expCheck currentTime expO) fun _ =>
    Res.bind payload.issuedAt fun iatO =>
    Res.bind (iatCheck minIssued maxIssued iatO) fun _ =>
    Res.bind (audCheck v.audience payload) fun _ =>
    validateClaimsLoop payload.claims v.claims)

/-! ### A concrete executable stand-in for the external serde_json codec

The engine is parameterised over serialize/parse functions; the theorems
assume only the round-trip instances they need of them. The codec below
is one concrete executable instantiation (a tagged byte code over an
alphabet of small naturals) used by the witnesses. `cpar` additionally
accepts a redundant leading pad byte, so that distinct byte strings can
parse to the same claims map — mirroring that JSON text is not a
canonical encoding. -/

/-- Unary code for one natural: n ones then a zero. -/
def unary (n : Nat) : List Nat :=
  List.replicate n 1 ++ [0]

/-- Three-byte little-endian code for one character. -/
def enc3 (n : Nat) : List Nat :=
  [n % 256, n / 256 % 256, n / 65536]

/-- Characters of a string, three bytes each. -/
def cserCharsAux : List Char → List Nat
  | [] => []
  | c :: cs => enc3 c.toNat ++ cserCharsAux cs

/-- A string: unary length prefix, then three bytes per character. -/
def cserChars (cs : List Char) : List Nat :=
  unary cs.length ++ cserCharsAux cs

mutual

/-- Serialize one JSON value. -/
def cser : Json → List Nat
  | .null => [5]
  | .bool b => [7, if b then 1 else 0]
  | .num n => 8 :: (if n < 0 then 1 else 0) :: unary n.natAbs
  | .str s => 3 :: cserChars s.data
  | .arr xs => 4 :: cserArr xs
  | .obj m => 6 :: cserObj m

/-- Serialize array elements, closed by 9. -/
def cserArr : List Json → List Nat
  | [] => [9]
  | x :: xs => cser x ++ cserArr xs

/-- Serialize object members (key string then value), closed by 9. -/
def cserObj : List (String × Json) → List Nat
  | [] => [9]
  | (k, v) :: m => 3 :: (cserChars k.data ++ (cser v ++ cserObj m))

end

/-- Parse one unary-coded natural. -/
def parseUnary : List Nat → Option (Nat × List Nat)
  | 0 :: rest => some (0, rest)
  | 1 :: rest =>
    match parseUnary rest with
    | some (n, r) => some (n + 1, r)
    | none => none
  | _ => none

/-- Parse a known count of three-byte characters. -/
def cparCharsN : Nat → List Nat → Option (List Char × List Nat)
  | 0, bs => some ([], bs)
  | n + 1, b0 :: b1 :: b2 :: rest =>
    match cparCharsN n rest with
    | some (cs, r) => some (Char.ofNat (b0 + 256 * b1 + 65536 * b2) :: cs, r)
    | none => none
  | _ + 1, _ => none

/-- Parse one length-prefixed string body. -/
def cparChars (bs : List Nat) : Option (List Char × List Nat) :=
  match parseUnary bs with
  | some (n, r) => cparCharsN n r
  | none => none

mutual

/-- Parse one JSON value (fuel-bounded). -/
def cparVal : Nat → List Nat → Option (Json × List Nat)
  | 0, _ => none
  | fuel + 1, bs =>
    match bs with
    | 5 :: r => some (.null, r)
    | 7 :: b :: r => some (.bool (b == 1), r)
    | 8 :: sgn :: r =>
      match parseUnary r with
      | some (n, r2) =>
        some (.num (if sgn == 1 then -(n : Int) else (n : Int)), r2)
      | none => none
    | 3 :: r =>
      match cparChars r with
      | some (cs, r2) => some (.str (String.mk cs), r2)
      | none => none
    | 4 :: r =>
      match cparArr fuel r with
      | some (xs, r2) => some (.arr xs, r2)
      | none => none
    | 6 :: r =>
      match cparObj fuel r with
      | some (m, r2) => some (.obj m, r2)
      | none => none
    | _ => none

/-- Parse array elements up to the closing 9 (fuel-bounded). -/
def cparArr : Nat → List Nat → Option (List Json × List Nat)
  | 0, _ => none
  | fuel + 1, bs =>
    match bs with
    | 9 :: r => some ([], r)
    | _ =>
      match cparVal fuel bs with
      | some (j, r) =>
        match cparArr fuel r with
        | some (xs, r2) => some (j :: xs, r2)
        | none => none
      | none => none

/-- Parse object members up to the closing 9 (fuel-bounded). -/
def cparObj : Nat → List Nat → Option (List (String × Json) × List Nat)
  | 0, _ => none
  | fuel + 1, bs =>
    match bs with
    | 9 :: r => some ([], r)
    | 3 :: r =>
      match cparChars r with
      | some (cs, r2) =>
        match cparVal fuel r2 with
        | some (v, r3) =>
          match cparObj fuel r3 with
          | some (m, r4) => some ((String.mk cs, v) :: m, r4)
          | none => none
        | none => none
      | none => none
    | _ => none

end

/-- Serialize a claims map (the concrete to_vec stand-in). -/
def cserMap (m : JMap) : List Nat :=
  cser (.obj m)

/-- Parse a whole byte string as one claims map. -/
def cparStrict (bs : List Nat) : Option JMap :=
  match cparVal (bs.length + 1) bs with
  | some (.obj m, []) => some m
  | _ => none

/-- The concrete from_slice stand-in: a claims map, optionally preceded by
one redundant pad byte 200 (so the code is deliberately non-canonical). -/
def cpar (bs : List Nat) : Option JMap :=
  match bs with
  | 200 :: rest => cparStrict rest
  | _ => cparStrict bs

/-! ### Concrete capabilities for the witnesses

Closed witness statements need executable encrypt/decrypt capabilities.
The toy content cipher transports the message as the ciphertext and
echoes the AAD as the tag, which satisfies the AEAD interface contract
(decrypt inverts encrypt under the same key, iv and aad). -/

/-- A toy content-encryption capability under a given registered name. -/
def toyCenc (n : String) : JweCenc where
  name := n
  keyLen := 0
  ivLen := 0
  encrypt := fun _ _ msg aad => .ok (msg, aad)
  decrypt := fun _ _ ct aad tag =>
    if tag = aad then .ok ct else .error (.invalidJweFormat .base64Invalid)

/-- A content-encryption capability whose decrypt answers with the AAD it
was handed — used to observe which bytes the engine passes as AAD. -/
def recCenc (n : String) : JweCenc where
  name := n
  keyLen := 0
  ivLen := 0
  encrypt := fun _ _ msg aad => .ok (msg, aad)
  decrypt := fun _ _ _ aad _ => .ok aad

/-- A direct-use encrypter: stamps its alg claim and hands back a fixed
content key with no wrapped form (the dir algorithm shape). -/
def dirEncrypter (kid : Option String) : JweEncrypter where
  algName := "dir"
  keyId := kid
  encrypt := fun _ h => .ok (h.setAlgorithm "dir", [], none)

/-- The matching direct-use decrypter. -/
def dirDecrypter (kid : Option String) : JweDecrypter where
  algName := "dir"
  keyId := kid
  decrypt := fun _ _ => .ok []

/-- A decrypter whose key unwrap fails with an InvalidKeyFormat error,
exercising the funnel pass-through for callee JoseErrors. -/
def badKeyDecrypter : JweDecrypter where
  algName := "dir"
  keyId := none
  decrypt := fun _ _ => .error (.invalidKeyFormat .keyFormat)

/-- A registry context holding one toy content encryption under the
A128CBC-HS256 registered name and no compressions. -/
def toyCtx : JweContext where
  compressions := []
  contentEncryptions := [("A128CBC-HS256", toyCenc "A128CBC-HS256")]

/-- A registry context whose one cipher echoes its AAD on decrypt. -/
def recCtx : JweContext where
  compressions := []
  contentEncryptions := [("A128CBC-HS256", recCenc "A128CBC-HS256")]

/-! ### Concrete round-trip instances -/

/-- A header carrying an enc claim and a crit claim set through the typed
setter, so its typed-source cache is non-empty. -/
def c1Header : JweHeader :=
  (JweHeader.new.setContentEncryption "A128CBC-HS256").setCritical ["x"]

/-- The wire header bytes the engine produces for that header under the
dir encrypter: the alg-stamped claims, serialized. -/
def c1HeaderBytes : List Nat :=
  cserMap (c1Header.setAlgorithm "dir").claims

/-- The compact message serialize_compact produces from that header and
the one-byte payload under the toy capabilities. -/
def c1Msg : List Char :=
  joinDot [b64encode c1HeaderBytes, [], [], b64encode [7],
    b64encode c1HeaderBytes]

/-- The final header claims of the round-trip witness run: enc set, alg
stamped by the encrypter, kid default-filled from the encrypter's
configured key id. -/
def c1wClaims : JMap :=
  (kidFill ((JweHeader.new.setContentEncryption
    "A128CBC-HS256").setAlgorithm "dir") (dirEncrypter (some "k1"))).claims

/-- The wire header bytes of the round-trip witness run. -/
def c1wBytes : List Nat :=
  cserMap c1wClaims

/-- The compact message of the round-trip witness run, payload 5, 6. -/
def c1wMsg : List Char :=
  joinDot [b64encode c1wBytes, [], [], b64encode [5, 6], b64encode c1wBytes]

/-- The final header claims of the AAD serialize-side witness run. -/
def c6Claims : JMap :=
  ((JweHeader.new.setContentEncryption
    "A128CBC-HS256").setAlgorithm "dir").claims

/-- The wire header bytes of the AAD serialize-side witness run. -/
def c6sBytes : List Nat :=
  cserMap c6Claims

/-- The compact message of the AAD serialize-side witness run. -/
def c6sMsg : List Char :=
  joinDot [b64encode c6sBytes, [], [], b64encode [9], b64encode c6sBytes]

/-- The parsed header map of the AAD deserialize-side witness run. -/
def c6dMap : JMap :=
  [("alg", Json.str "dir"), ("enc", Json.str "A128CBC-HS256")]

/-- Non-canonical wire header bytes for the deserialize-side witness: a
redundant pad byte the parser tolerates but the serializer never emits,
so these bytes differ from every re-serialization of the parsed map. -/
def c6dBytes : List Nat :=
  200 :: cserMap c6dMap

/-- The compact message of the AAD deserialize-side witness run. -/
def c6dMsg : List Char :=
  joinDot [b64encode c6dBytes, [], [], [], []]

/-! ## Lemmas and claim theorems -/

mutual

/-- Boolean JSON equality agrees with propositional equality. -/
theorem Json.beq_iff : ∀ a b : Json, (Json.beq a b = true) ↔ a = b
  | .null, b => by cases b <;> simp [Json.beq]
  | .bool x, b => by cases b <;> simp [Json.beq]
  | .num x, b => by cases b <;> simp [Json.beq]
  | .str x, b => by cases b <;> simp [Json.beq]
  | .arr xs, b => by
    cases b <;> simp [Json.beq]
    exact Json.beqList_iff xs _
  | .obj m, b => by
    cases b <;> simp [Json.beq]
    exact Json.beqObj_iff m _

/-- Array version of `Json.beq_iff`. -/
theorem Json.beqList_iff : ∀ a b : List Json, (Json.beqList a b = true) ↔ a = b
  | [], b => by cases b <;> simp [Json.beqList]
  | x :: xs, [] => by simp [Json.beqList]
  | x :: xs, y :: ys => by
    simp [Json.beqList, Json.beq_iff x y, Json.beqList_iff xs ys]

/-- Object version of `Json.beq_iff`. -/
theorem Json.beqObj_iff :
    ∀ a b : List (String × Json), (Json.beqObj a b = true) ↔ a = b
  | [], b => by cases b <;> simp [Json.beqObj]
  | x :: xs, [] => by simp [Json.beqObj]
  | (k1, v1) :: xs, (k2, v2) :: ys => by
    simp [Json.beqObj, Json.beq_iff v1 v2, Json.beqObj_iff xs ys, and_assoc]

end

instance : DecidableEq Json := fun a b =>
  decidable_of_iff (Json.beq a b = true) (Json.beq_iff a b)

instance : DecidableEq Jwk := fun a b =>
  decidable_of_iff (a.map = b.map) (by cases a; cases b; simp)

instance : DecidableEq SourceValue := fun a b => by
  cases a <;> cases b <;>
    first
      | (rename_i x y; exact decidable_of_iff (x = y) (by simp))
      | exact isFalse (fun h => by cases h)

instance : DecidableEq JweHeader := fun a b =>
  decidable_of_iff (a.claims = b.claims ∧ a.sources = b.sources)
    (by cases a; cases b; simp)

instance : DecidableEq JwsHeader := fun a b =>
  decidable_of_iff (a.claims = b.claims) (by cases a; cases b; simp)

instance : DecidableEq JwtPayload := fun a b =>
  decidable_of_iff (a.claims = b.claims ∧ a.sources = b.sources)
    (by cases a; cases b; simp)

instance {e a : Type} [DecidableEq e] [DecidableEq a] :
    DecidableEq (Except e a) := fun x y => by
  cases x <;> cases y <;>
    first
      | (rename_i u v; exact decidable_of_iff (u = v) (by simp))
      | exact isFalse (fun h => by cases h)

/-- Looking up the freshly inserted key answers the inserted value. -/
theorem mapGet_mapInsert_self (m : JMap) (k : String) (v : Json) :
    mapGet (mapInsert m k v) k = some v := by
  induction m with
  | nil => simp [mapInsert, mapGet]
  | cons p rest ih =>
    obtain ⟨k2, v2⟩ := p
    by_cases h : k2 = k <;> simp [mapInsert, mapGet, h, ih]

/-- Inserting one key leaves every other key unchanged. -/
theorem mapGet_mapInsert_ne (m : JMap) {k k2 : String} (v : Json)
    (h : k ≠ k2) : mapGet (mapInsert m k v) k2 = mapGet m k2 := by
  induction m with
  | nil => simp [mapInsert, mapGet, h]
  | cons p rest ih =>
    obtain ⟨k3, v3⟩ := p
    by_cases h3 : k3 = k
    · subst h3; simp [mapInsert, mapGet, h]
    · by_cases h4 : k3 = k2
      · subst h4; simp [mapInsert, mapGet, h3, Ne.symm h]
      · simp [mapInsert, mapGet, h3, h4, ih]

/-- Alphabet characters decode back to their six-bit value. -/
theorem b64val_b64char : ∀ n, n < 64 → b64val (b64char n) = some n := by
  decide

/-- The alphabet never contains the period separator. -/
theorem b64char_ne_dot (n : Nat) : b64char n ≠ '.' := by
  have h64 : n % 64 < 64 := Nat.mod_lt _ (by omega)
  have haux : ∀ m, m < 64 → b64char m ≠ '.' := by decide
  have hmod : b64char n = b64char (n % 64) := by
    unfold b64char
    have : n % 64 % 64 = n % 64 := by omega
    rw [this]
  rw [hmod]
  exact haux _ h64

/-- base64url output never contains the period separator. -/
theorem dot_not_mem_b64encode : ∀ bs : List Nat, '.' ∉ b64encode bs
  | [] => by simp [b64encode]
  | [b0] => by
    simp [b64encode]
    exact ⟨(b64char_ne_dot _).symm, (b64char_ne_dot _).symm⟩
  | [b0, b1] => by
    simp [b64encode]
    exact ⟨(b64char_ne_dot _).symm, (b64char_ne_dot _).symm,
      (b64char_ne_dot _).symm⟩
  | b0 :: b1 :: b2 :: rest => by
    simp [b64encode]
    refine ⟨(b64char_ne_dot _).symm, (b64char_ne_dot _).symm,
      (b64char_ne_dot _).symm, (b64char_ne_dot _).symm, ?_⟩
    exact dot_not_mem_b64encode rest

/-- base64url decoding inverts encoding on byte sequences. -/
theorem b64decode_b64encode :
    ∀ bs : List Nat, ByteList bs → b64decode (b64encode bs) = some bs
  | [] => fun _ => by simp [b64encode, b64decode]
  | [b0] => fun h => by
    have h0 : b0 < 256 := h b0 (by simp)
    simp only [b64encode, b64decode]
    rw [b64val_b64char _ (by omega), b64val_b64char _ (by omega)]
    simp only []
    have hm : b0 % 4 * 16 % 16 = 0 := by omega
    rw [if_pos hm]
    congr 2
    omega
  | [b0, b1] => fun h => by
    have h0 : b0 < 256 := h b0 (by simp)
    have h1 : b1 < 256 := h b1 (by simp)
    simp only [b64encode, b64decode]
    rw [b64val_b64char _ (by omega), b64val_b64char _ (by omega),
      b64val_b64char _ (by omega)]
    simp only []
    have hm : b1 % 16 * 4 % 4 = 0 := by omega
    rw [if_pos hm]
    congr 1
    congr 1
    · omega
    congr 1
    omega
  | b0 :: b1 :: b2 :: rest => fun h => by
    have h0 : b0 < 256 := h b0 (by simp)
    have h1 : b1 < 256 := h b1 (by simp)
    have h2 : b2 < 256 := h b2 (by simp)
    have hrest : ByteList rest := fun b hb => h b (by simp [hb])
    simp only [b64encode, b64decode]
    rw [b64val_b64char _ (by omega), b64val_b64char _ (by omega),
      b64val_b64char _ (by omega), b64val_b64char _ (by omega),
      b64decode_b64encode rest hrest]
    simp only []
    congr 1
    congr 1
    · omega
    congr 1
    · omega
    congr 1
    omega

/-- Splitting after a dot-free prefix peels exactly that prefix. -/
theorem splitDot_append (a r : List Char) (h : '.' ∉ a) :
    splitDot (a ++ '.' :: r) = a :: splitDot r := by
  induction a with
  | nil => simp [splitDot]
  | cons c cs ih =>
    have hc : ¬ (c = '.') := fun e => h (by simp [e])
    have h2 : '.' ∉ cs := fun m => h (by simp [m])
    simp only [List.cons_append, splitDot, if_neg hc, List.append_eq]
    rw [ih h2]

/-- A dot-free string splits into the single part it is. -/
theorem splitDot_noDot (a : List Char) (h : '.' ∉ a) : splitDot a = [a] := by
  induction a with
  | nil => simp [splitDot]
  | cons c cs ih =>
    have hc : ¬ (c = '.') := fun e => h (by simp [e])
    have h2 : '.' ∉ cs := fun m => h (by simp [m])
    simp only [splitDot, if_neg hc, ih h2]

/-- Splitting the five-part compact join recovers the five parts. -/
theorem splitDot_joinDot5 (a b c d e : List Char) (ha : '.' ∉ a)
    (hb : '.' ∉ b) (hc : '.' ∉ c) (hd : '.' ∉ d) (he : '.' ∉ e) :
    splitDot (joinDot [a, b, c, d, e]) = [a, b, c, d, e] := by
  simp only [joinDot, splitDot_append _ _ ha, splitDot_append _ _ hb,
    splitDot_append _ _ hc, splitDot_append _ _ hd, splitDot_noDot _ he]

/-- Sequencing succeeds exactly when both steps do. -/
@[simp]
theorem Res.bind_ok_iff {ε α β : Type} {x : Res ε α} {f : α → Res ε β}
    {b : β} : Res.bind x f = .ok b ↔ ∃ a, x = .ok a ∧ f a = .ok b := by
  cases x <;> simp [Res.bind]

/-- Sequencing aborts exactly when one step does. -/
@[simp]
theorem Res.bind_panic_iff {ε α β : Type} {x : Res ε α} {f : α → Res ε β}
    {m : String} :
    Res.bind x f = .panic m ↔
      x = .panic m ∨ ∃ a, x = .ok a ∧ f a = .panic m := by
  cases x <;> simp [Res.bind]

/-- Sequencing errors exactly when one step does. -/
@[simp]
theorem Res.bind_err_iff {ε α β : Type} {x : Res ε α} {f : α → Res ε β}
    {e : ε} :
    Res.bind x f = .err e ↔ x = .err e ∨ ∃ a, x = .ok a ∧ f a = .err e := by
  cases x <;> simp [Res.bind]

@[simp]
theorem bailMsg_eq {α : Type} (m : Emsg) :
    (bailMsg m : Res Inner α) = .err (.msg m) := rfl

@[simp]
theorem liftOpt_ok_iff {α : Type} {x : Option α} {m : Emsg} {a : α} :
    liftOpt x m = .ok a ↔ x = some a := by
  cases x <;> simp [liftOpt]

@[simp]
theorem liftOpt_panic_iff {α : Type} {x : Option α} {m : Emsg} {s : String} :
    liftOpt x m = .panic s ↔ False := by
  cases x <;> simp [liftOpt]

@[simp]
theorem liftOpt_err_iff {α : Type} {x : Option α} {m : Emsg} {e : Inner} :
    liftOpt x m = .err e ↔ x = none ∧ e = .msg m := by
  cases x <;> simp [liftOpt, eq_comm]

@[simp]
theorem liftJose_ok_iff {α : Type} {x : Except JoseError α} {a : α} :
    liftJose x = .ok a ↔ x = .ok a := by
  cases x <;> simp [liftJose]

@[simp]
theorem liftJose_panic_iff {α : Type} {x : Except JoseError α} {s : String} :
    liftJose x = .panic s ↔ False := by
  cases x <;> simp [liftJose]

@[simp]
theorem liftJose_err_iff {α : Type} {x : Except JoseError α} {e : Inner} :
    liftJose x = .err e ↔ ∃ j, x = .error j ∧ e = .jose j := by
  cases x <;> simp [liftJose, eq_comm]

@[simp]
theorem liftIo_ok_iff {α : Type} {x : Except Unit α} {a : α} :
    liftIo x = .ok a ↔ x = .ok a := by
  cases x <;> simp [liftIo]

@[simp]
theorem liftIo_panic_iff {α : Type} {x : Except Unit α} {s : String} :
    liftIo x = .panic s ↔ False := by
  cases x <;> simp [liftIo]

@[simp]
theorem liftIo_err_iff {α : Type} {x : Except Unit α} {e : Inner} :
    liftIo x = .err e ↔ x = .error () ∧ e = .msg .ioFailure := by
  cases x with
  | ok a => simp [liftIo]
  | error u => cases u; simp [liftIo, eq_comm]

@[simp]
theorem jweFunnel_ok_iff {α : Type} {x : Res Inner α} {a : α} :
    jweFunnel x = .ok a ↔ x = .ok a := by
  cases x with
  | err e => cases e <;> simp [jweFunnel]
  | panic m => simp [jweFunnel]
  | ok v => simp [jweFunnel]

@[simp]
theorem jweFunnel_panic_iff {α : Type} {x : Res Inner α} {s : String} :
    jweFunnel x = .panic s ↔ x = .panic s := by
  cases x with
  | err e => cases e <;> simp [jweFunnel]
  | panic m => simp [jweFunnel]
  | ok v => simp [jweFunnel]

theorem jweFunnel_err_iff {α : Type} {x : Res Inner α} {e : JoseError} :
    jweFunnel x = .err e ↔
      (∃ m, x = .err (.msg m) ∧ e = .invalidJweFormat m) ∨
        x = .err (.jose e) := by
  cases x with
  | err i => cases i <;> simp [jweFunnel, eq_comm]
  | panic m => simp [jweFunnel]
  | ok v => simp [jweFunnel]

@[simp]
theorem jwtFunnel_ok_iff {α : Type} {x : Res Inner α} {a : α} :
    jwtFunnel x = .ok a ↔ x = .ok a := by
  cases x with
  | err e => cases e <;> simp [jwtFunnel]
  | panic m => simp [jwtFunnel]
  | ok v => simp [jwtFunnel]

@[simp]
theorem jwtFunnel_panic_iff {α : Type} {x : Res Inner α} {s : String} :
    jwtFunnel x = .panic s ↔ x = .panic s := by
  cases x with
  | err e => cases e <;> simp [jwtFunnel]
  | panic m => simp [jwtFunnel]
  | ok v => simp [jwtFunnel]

@[simp]
theorem claimFunnel_ok_iff {α : Type} {x : Res Inner α} {a : α} :
    claimFunnel x = .ok a ↔ x = .ok a := by
  cases x with
  | err e => cases e <;> simp [claimFunnel]
  | panic m => simp [claimFunnel]
  | ok v => simp [claimFunnel]

theorem claimFunnel_err_iff {α : Type} {x : Res Inner α} {e : JoseError} :
    claimFunnel x = .err e ↔
      (∃ m, x = .err (.msg m) ∧ e = .invalidClaim m) ∨
        x = .err (.jose e) := by
  cases x with
  | err i => cases i <;> simp [claimFunnel, eq_comm]
  | panic m => simp [claimFunnel]
  | ok v => simp [claimFunnel]

/-- Source-cache lookup after inserting the same key. -/
theorem sGet_sInsert_self (m : SMap) (k : String) (v : SourceValue) :
    sGet (sInsert m k v) k = some v := by
  induction m with
  | nil => simp [sInsert, sGet]
  | cons p rest ih =>
    obtain ⟨k2, v2⟩ := p
    by_cases h : k2 = k <;> simp [sInsert, sGet, h, ih]

/-- Source-cache lookup after inserting another key. -/
theorem sGet_sInsert_ne (m : SMap) {k k2 : String} (v : SourceValue)
    (h : k ≠ k2) : sGet (sInsert m k v) k2 = sGet m k2 := by
  induction m with
  | nil => simp [sInsert, sGet, h]
  | cons p rest ih =>
    obtain ⟨k3, v3⟩ := p
    by_cases h3 : k3 = k
    · subst h3; simp [sInsert, sGet, h]
    · by_cases h4 : k3 = k2
      · subst h4; simp [sInsert, sGet, h3, Ne.symm h]
      · simp [sInsert, sGet, h3, h4, ih]

/-- The typed time accessors never produce a typed error (they answer or
abort). -/
@[simp]
theorem JwtPayload.expiresAt_ne_err (p : JwtPayload) (e : Inner) :
    p.expiresAt ≠ .err e := by
  intro h
  unfold JwtPayload.expiresAt at h
  split at h <;> simp_all

@[simp]
theorem JwtPayload.notBefore_ne_err (p : JwtPayload) (e : Inner) :
    p.notBefore ≠ .err e := by
  intro h
  unfold JwtPayload.notBefore at h
  split at h <;> simp_all

@[simp]
theorem JwtPayload.issuedAt_ne_err (p : JwtPayload) (e : Inner) :
    p.issuedAt ≠ .err e := by
  intro h
  unfold JwtPayload.issuedAt at h
  split at h <;> simp_all

@[simp]
theorem JwtPayload.audience_ne_err (p : JwtPayload) (e : Inner) :
    p.audience ≠ .err e := by
  intro h
  unfold JwtPayload.audience at h
  split at h <;> simp_all

/-- The exact-equality claim loop only raises claim-invalid or
claim-missing messages. -/
theorem validateClaimsLoop_err_shape (pc : JMap) :
    ∀ (vc : JMap) (i : Inner), validateClaimsLoop pc vc = .err i →
      ∃ k, i = .msg (.claimInvalid k) ∨ i = .msg (.claimMissing k)
  | [], i => by simp [validateClaimsLoop]
  | (k, v1) :: rest, i => by
    intro h
    unfold validateClaimsLoop at h
    split at h
    · split at h
      · exact validateClaimsLoop_err_shape pc rest i h
      · simp [bailMsg] at h; exact ⟨k, Or.inl h.symm⟩
    · simp [bailMsg] at h; exact ⟨k, Or.inr h.symm⟩

/-- The enc resolution answers a registered capability exactly when the
claim names one. -/
@[simp]
theorem resolveCenc_ok_iff {ctx : JweContext} {o : Option String}
    {c : JweCenc} :
    resolveCenc ctx o = .ok c ↔
      ∃ enc, o = some enc ∧ getContentEncryption ctx enc = some c := by
  rcases o with _ | enc
  · simp [resolveCenc]
  · rcases h : getContentEncryption ctx enc with _ | c2 <;>
      simp [resolveCenc, h]

@[simp]
theorem resolveCenc_err_iff {ctx : JweContext} {o : Option String}
    {i : Inner} :
    resolveCenc ctx o = .err i ↔
      (o = none ∧ i = .msg .encRequired) ∨
        ∃ enc, o = some enc ∧ getContentEncryption ctx enc = none ∧
          i = .msg (.encNotRegistered enc) := by
  rcases o with _ | enc
  · simp [resolveCenc, eq_comm]
  · rcases h : getContentEncryption ctx enc with _ | c2 <;>
      simp [resolveCenc, h, eq_comm]

@[simp]
theorem resolveCenc_panic_iff {ctx : JweContext} {o : Option String}
    {m : String} : resolveCenc ctx o = .panic m ↔ False := by
  rcases o with _ | enc
  · simp [resolveCenc]
  · rcases h : getContentEncryption ctx enc with _ | c2 <;>
      simp [resolveCenc, h]

/-- The zip resolution answers none for an absent claim and a registered
capability for a named one. -/
@[simp]
theorem resolveComp_ok_iff {ctx : JweContext} {o : Option String}
    {r : Option JweComp} :
    resolveComp ctx o = .ok r ↔
      (o = none ∧ r = none) ∨
        ∃ zip comp, o = some zip ∧ getCompression ctx zip = some comp ∧
          r = some comp := by
  rcases o with _ | zip
  · simp [resolveComp, eq_comm]
  · rcases h : getCompression ctx zip with _ | c2 <;>
      simp [resolveComp, h, eq_comm]

@[simp]
theorem resolveComp_err_iff {ctx : JweContext} {o : Option String}
    {i : Inner} :
    resolveComp ctx o = .err i ↔
      ∃ zip, o = some zip ∧ getCompression ctx zip = none ∧
        i = .msg (.zipNotRegistered zip) := by
  rcases o with _ | zip
  · simp [resolveComp]
  · rcases h : getCompression ctx zip with _ | c2 <;>
      simp [resolveComp, h, eq_comm]

@[simp]
theorem resolveComp_panic_iff {ctx : JweContext} {o : Option String}
    {m : String} : resolveComp ctx o = .panic m ↔ False := by
  rcases o with _ | zip
  · simp [resolveComp]
  · rcases h : getCompression ctx zip with _ | c2 <;> simp [resolveComp, h]

/-- Compression raises only the io failure message. -/
@[simp]
theorem compressStep_err_iff {compression : Option JweComp}
    {payload : List Nat} {i : Inner} :
    compressStep compression payload = .err i ↔
      ∃ comp, compression = some comp ∧ comp.compress payload = .error () ∧
        i = .msg .ioFailure := by
  rcases compression with _ | comp
  · simp [compressStep]
  · rcases h : comp.compress payload with u | c2
    · cases u
      simp [compressStep, h, eq_comm]
    · simp [compressStep, h]

@[simp]
theorem compressStep_panic_iff {compression : Option JweComp}
    {payload : List Nat} {m : String} :
    compressStep compression payload = .panic m ↔ False := by
  rcases compression with _ | comp
  · simp [compressStep]
  · rcases h : comp.compress payload with u | c2 <;> simp [compressStep, h]

@[simp]
theorem compressStep_none (payload : List Nat) :
    compressStep none payload = .ok payload := rfl

/-- Decompression raises only the io failure message. -/
@[simp]
theorem decompressStep_err_iff {compression : Option JweComp}
    {content : List Nat} {i : Inner} :
    decompressStep compression content = .err i ↔
      ∃ comp, compression = some comp ∧
        comp.decompress content = .error () ∧ i = .msg .ioFailure := by
  rcases compression with _ | comp
  · simp [decompressStep]
  · rcases h : comp.decompress content with u | c2
    · cases u
      simp [decompressStep, h, eq_comm]
    · simp [decompressStep, h]

@[simp]
theorem decompressStep_panic_iff {compression : Option JweComp}
    {content : List Nat} {m : String} :
    decompressStep compression content = .panic m ↔ False := by
  rcases compression with _ | comp
  · simp [decompressStep]
  · rcases h : comp.decompress content with u | c2 <;>
      simp [decompressStep, h]

@[simp]
theorem decompressStep_none (content : List Nat) :
    decompressStep none content = .ok content := rfl

/-- The alg check passes exactly when the header claim names the
decrypter's algorithm. -/
@[simp]
theorem algCheck_ok_iff {d : JweDecrypter} {o : Option String} {u : Unit} :
    algCheck d o = .ok u ↔ o = some d.algName := by
  rcases o with _ | v
  · simp [algCheck]
  · by_cases h : v = d.algName <;> simp [algCheck, h]

@[simp]
theorem algCheck_err_iff {d : JweDecrypter} {o : Option String} {i : Inner} :
    algCheck d o = .err i ↔
      (o = none ∧ i = .msg .algRequired) ∨
        ∃ v, o = some v ∧ v ≠ d.algName ∧
          i = .msg (.algMismatch d.algName v) := by
  rcases o with _ | v
  · simp [algCheck, eq_comm]
  · by_cases h : v = d.algName <;> simp [algCheck, h, eq_comm]

@[simp]
theorem algCheck_panic_iff {d : JweDecrypter} {o : Option String}
    {m : String} : algCheck d o = .panic m ↔ False := by
  rcases o with _ | v
  · simp [algCheck]
  · by_cases h : v = d.algName <;> simp [algCheck, h]

/-- The kid check passes exactly when no key id is configured or the
header claim equals the configured one. -/
@[simp]
theorem kidCheck_ok_iff {d : JweDecrypter} {o : Option String} {u : Unit} :
    kidCheck d o = .ok u ↔
      d.keyId = none ∨ ∃ dk, d.keyId = some dk ∧ o = some dk := by
  rcases hd : d.keyId with _ | dk
  · simp [kidCheck, hd]
  · rcases o with _ | a
    · simp [kidCheck, hd]
    · by_cases h : dk = a <;> simp [kidCheck, hd, h, eq_comm]

@[simp]
theorem kidCheck_err_iff {d : JweDecrypter} {o : Option String} {i : Inner} :
    kidCheck d o = .err i ↔
      ∃ dk, d.keyId = some dk ∧
        ((o = none ∧ i = .msg .kidRequired) ∨
          ∃ a, o = some a ∧ dk ≠ a ∧ i = .msg (.kidMismatch a)) := by
  rcases hd : d.keyId with _ | dk
  · simp [kidCheck, hd]
  · rcases o with _ | a
    · simp [kidCheck, hd, eq_comm]
    · by_cases h : dk = a <;> simp [kidCheck, hd, h, eq_comm]

@[simp]
theorem kidCheck_panic_iff {d : JweDecrypter} {o : Option String}
    {m : String} : kidCheck d o = .panic m ↔ False := by
  rcases hd : d.keyId with _ | dk
  · simp [kidCheck, hd]
  · rcases o with _ | a
    · simp [kidCheck, hd]
    · by_cases h : dk = a <;> simp [kidCheck, hd, h]

/-- The enc and zip accessors never produce a typed error (they answer or
abort). -/
@[simp]
theorem JweHeader.contentEncryption_ne_err (h : JweHeader) (e : Inner) :
    h.contentEncryption ≠ .err e := by
  intro hc
  unfold JweHeader.contentEncryption at hc
  split at hc <;> simp_all

@[simp]
theorem JweHeader.compression_ne_err (h : JweHeader) (e : Inner) :
    h.compression ≠ .err e := by
  intro hc
  unfold JweHeader.compression at hc
  split at hc <;> simp_all

/-- A claims map contains a key exactly when the key labels one of its
entries. -/
theorem mapContains_iff_mem {m : JMap} {k : String} :
    mapContains m k = true ↔ k ∈ m.map Prod.fst := by
  induction m with
  | nil => simp [mapContains, mapGet]
  | cons p rest ih =>
    obtain ⟨k2, v2⟩ := p
    by_cases h : k2 = k
    · subst h
      simp [mapContains, mapGet]
    · simpa [mapContains, mapGet, h, Ne.symm h] using ih

/-- Containment through a cons cell. -/
theorem mapContains_cons {k0 : String} {v0 : Json} {rest : JMap}
    {k : String} :
    mapContains ((k0, v0) :: rest) k = true ↔
      k0 = k ∨ mapContains rest k = true := by
  by_cases h : k0 = k <;> simp [mapContains, mapGet, h]

/-- Inserting preserves and adds containment. -/
theorem mapContains_mapInsert {m : JMap} {k k2 : String} {v : Json} :
    mapContains (mapInsert m k v) k2 = true ↔
      k = k2 ∨ mapContains m k2 = true := by
  by_cases h : k = k2
  · subst h
    simp [mapContains, mapGet_mapInsert_self]
  · simp [mapContains, mapGet_mapInsert_ne m v h, h]

/-- Every error of the merge loop is a duplicate-key message. -/
theorem mergeClaims_err_shape :
    ∀ (src acc : JMap) (i : Inner), mergeClaims acc src = .err i →
      ∃ k, i = .msg (.duplicateKey k)
  | [], acc, i => by simp [mergeClaims]
  | (k0, v0) :: rest, acc, i => by
    intro h
    unfold mergeClaims at h
    split at h
    · simp [bailMsg] at h
      exact ⟨k0, h.symm⟩
    · exact mergeClaims_err_shape rest _ i h

/-- The merge loop never aborts. -/
theorem mergeClaims_ne_panic :
    ∀ (src acc : JMap) (m : String), mergeClaims acc src ≠ .panic m
  | [], acc, m => by simp [mergeClaims]
  | (k0, v0) :: rest, acc, m => by
    intro h
    unfold mergeClaims at h
    split at h
    · simp [bailMsg] at h
    · exact mergeClaims_ne_panic rest _ m h

/-- A successful merge contains every key of both inputs (and no
others). -/
theorem mergeClaims_ok_contains :
    ∀ (src acc out : JMap), mergeClaims acc src = .ok out →
      ∀ k, mapContains out k = true ↔
        (mapContains acc k = true ∨ mapContains src k = true)
  | [], acc, out => by
    intro h k
    simp [mergeClaims] at h
    subst h
    simp [mapContains, mapGet]
  | (k0, v0) :: rest, acc, out => by
    intro h k
    unfold mergeClaims at h
    split at h
    · simp [bailMsg] at h
    · rw [mergeClaims_ok_contains rest _ out h k, mapContains_mapInsert,
        mapContains_cons]
      tauto

/-- A key present in both inputs makes the merge fail with a
duplicate-key message. -/
theorem mergeClaims_shared_err :
    ∀ (src acc : JMap) (k : String), mapContains acc k = true →
      mapContains src k = true →
      ∃ k2, mergeClaims acc src = .err (.msg (.duplicateKey k2))
  | [], acc, k => by
    intro h1 h2
    simp [mapContains, mapGet] at h2
  | (k0, v0) :: rest, acc, k => by
    intro h1 h2
    unfold mergeClaims
    split
    · exact ⟨k0, rfl⟩
    · rename_i hnc
      have hk : k0 ≠ k := by
        intro e
        subst e
        exact hnc h1
      have h2r : mapContains rest k = true := by
        rcases mapContains_cons.mp h2 with e | hr
        · exact absurd e hk
        · exact hr
      have h1i : mapContains (mapInsert acc k0 v0) k = true :=
        mapContains_mapInsert.mpr (Or.inr h1)
      exact mergeClaims_shared_err rest _ k h1i h2r

/-- Disjoint inputs (the source with distinct keys) merge successfully. -/
theorem mergeClaims_disjoint_ok :
    ∀ (src acc : JMap),
      (∀ k, mapContains acc k = true → mapContains src k = true → False) →
      (src.map Prod.fst).Nodup →
      ∃ out, mergeClaims acc src = .ok out
  | [], acc => by
    intro hdis hnd
    exact ⟨acc, by simp [mergeClaims]⟩
  | (k0, v0) :: rest, acc => by
    intro hdis hnd
    unfold mergeClaims
    split
    · rename_i hc
      exact absurd (hdis k0 hc (mapContains_cons.mpr (Or.inl rfl))) id
    · simp only [List.map_cons] at hnd
      obtain ⟨hk0, hndr⟩ := List.nodup_cons.mp hnd
      refine mergeClaims_disjoint_ok rest (mapInsert acc k0 v0) ?_ hndr
      intro k hacc2 hrest
      rcases mapContains_mapInsert.mp hacc2 with rfl | hacc
      · exact hk0 (mapContains_iff_mem.mp hrest)
      · exact hdis k hacc (mapContains_cons.mpr (Or.inr hrest))

/-- The nbf rule raises only the not-yet-valid message, and only when nbf
is strictly after the current time. -/
@[simp]
theorem nbfCheck_err_iff {c : Nat} {o : Option Nat} {i : Inner} :
    nbfCheck c o = .err i ↔
      ∃ n, o = some n ∧ c < n ∧ i = .msg (.notYetValid n) := by
  rcases o with _ | n
  · simp [nbfCheck]
  · by_cases h : c < n <;> simp [nbfCheck, h, eq_comm]

@[simp]
theorem nbfCheck_panic_iff {c : Nat} {o : Option Nat} {m : String} :
    nbfCheck c o = .panic m ↔ False := by
  rcases o with _ | n
  · simp [nbfCheck]
  · by_cases h : c < n <;> simp [nbfCheck, h]

/-- The exp rule raises only the expired message, and only when exp is at
or before the current time. -/
@[simp]
theorem expCheck_err_iff {c : Nat} {o : Option Nat} {i : Inner} :
    expCheck c o = .err i ↔
      ∃ n, o = some n ∧ n ≤ c ∧ i = .msg (.expired n) := by
  rcases o with _ | n
  · simp [expCheck]
  · by_cases h : n ≤ c <;> simp [expCheck, h, eq_comm]

@[simp]
theorem expCheck_panic_iff {c : Nat} {o : Option Nat} {m : String} :
    expCheck c o = .panic m ↔ False := by
  rcases o with _ | n
  · simp [expCheck]
  · by_cases h : n ≤ c <;> simp [expCheck, h]

/-- The iat rule raises only the issued-too-old and issued-too-new
messages, each exactly at its window violation. -/
@[simp]
theorem iatCheck_err_iff {lo hi : Nat} {o : Option Nat} {i : Inner} :
    iatCheck lo hi o = .err i ↔
      ∃ n, o = some n ∧
        ((n < lo ∧ i = .msg (.issuedTooOld n)) ∨
          (¬ n < lo ∧ hi < n ∧ i = .msg (.issuedTooNew n))) := by
  rcases o with _ | n
  · simp [iatCheck]
  · by_cases h1 : n < lo
    · simp [iatCheck, h1, eq_comm]
    · have h1b : lo ≤ n := Nat.le_of_not_lt h1
      by_cases h2 : hi < n <;> simp [iatCheck, h1, h1b, h2, eq_comm]

@[simp]
theorem iatCheck_panic_iff {lo hi : Nat} {o : Option Nat} {m : String} :
    iatCheck lo hi o = .panic m ↔ False := by
  rcases o with _ | n
  · simp [iatCheck]
  · by_cases h1 : n < lo
    · simp [iatCheck, h1]
    · by_cases h2 : hi < n <;> simp [iatCheck, h1, h2]

/-- The audience rule raises only the audience-invalid message (the typed
cache accessor itself cannot produce a typed error). -/
@[simp]
theorem audCheck_err_iff {va : Option String} {p : JwtPayload} {i : Inner} :
    audCheck va p = .err i ↔
      ∃ aud, va = some aud ∧
        ∃ auds, p.audience = .ok (some auds) ∧
          aud ∉ auds ∧ i = .msg .audienceInvalid := by
  rcases va with _ | aud
  · simp [audCheck]
  · simp only [audCheck, Res.bind_err_iff]
    constructor
    · rintro (h | ⟨a, ha, h⟩)
      · exact absurd h (JwtPayload.audience_ne_err p i)
      · rcases a with _ | auds
        · simp at h
        · by_cases hc : aud ∈ auds
          · simp [hc] at h
          · simp [hc, bailMsg] at h
            exact ⟨aud, rfl, auds, ha, hc, h.symm⟩
    · rintro ⟨aud2, haud2, auds, ha, hc, hi⟩
      obtain rfl : aud2 = aud := by cases haud2; rfl
      exact Or.inr ⟨some auds, ha, by simp [hc, bailMsg, hi]⟩

@[simp]
theorem audCheck_panic_iff {va : Option String} {p : JwtPayload}
    {m : String} :
    audCheck va p = .panic m ↔
      ∃ aud, va = some aud ∧ p.audience = .panic m := by
  rcases va with _ | aud
  · simp [audCheck]
  · simp only [audCheck, Res.bind_panic_iff]
    constructor
    · rintro (h | ⟨a, ha, h⟩)
      · exact ⟨aud, rfl, h⟩
      · rcases a with _ | auds
        · simp at h
        · by_cases hc : aud ∈ auds <;> simp [hc] at h
    · rintro ⟨aud2, haud2, h⟩
      obtain rfl : aud2 = aud := by cases haud2; rfl
      exact Or.inl h

/-- The exact-equality claim loop never raises the not-yet-valid
message. -/
@[simp]
theorem validateClaimsLoop_ne_notYetValid (pc vc : JMap) (u : Nat) :
    validateClaimsLoop pc vc ≠ .err (.msg (.notYetValid u)) := by
  intro h
  rcases validateClaimsLoop_err_shape pc vc _ h with ⟨k, hk | hk⟩ <;>
    simp at hk

/-- The exact-equality claim loop never propagates a callee JoseError. -/
@[simp]
theorem validateClaimsLoop_ne_jose (pc vc : JMap) (e : JoseError) :
    validateClaimsLoop pc vc ≠ .err (.jose e) := by
  intro h
  rcases validateClaimsLoop_err_shape pc vc _ h with ⟨k, hk | hk⟩ <;>
    simp at hk

set_option maxRecDepth 10000 in
/-- CLAIM C2 (code bug witness): the decode paths abort instead of
returning a typed error. A compact JWE whose decoded header carries a
numeric enc claim reaches the unreachable! in
JweHeader::content_encryption, and the flattened-JSON deserializer
aborts unconditionally at its unimplemented!. -/
theorem C2_decode_paths_abort :
    deserializeCompact toyCtx cpar
      (joinDot [b64encode (cserMap [("enc", Json.num 1)]), [], [], [], []])
      (dirDecrypter none) = .panic "internal error: entered unreachable code" ∧
    deserializeJsonWithSelector toyCtx [] (fun _ => .ok none) =
      .panic "not implemented: JWE is not supported yet." := by
  constructor
  · decide
  · rfl

/-- CLAIM C7: unsecured JWT decoding never aborts, and accepts an input
only when it splits into exactly three period-separated segments with an
empty third segment, the decoded header's alg claim is exactly the string
none, and the header carries no kid claim (the returned header being the
parsed claims map). -/
theorem C7_decode_unsecured_conditions :
    (∀ (par : List Nat → Option JMap) (input : List Char) (m : String),
      decodeUnsecured par input ≠ .panic m) ∧
    (∀ (par : List Nat → Option JMap) (input : List Char)
      (p : JwtPayload) (h : JwsHeader),
      decodeUnsecured par input = .ok (p, h) →
      ∃ p0 p1 hb hm,
        splitDot input = [p0, p1, []] ∧ b64decode p0 = some hb ∧
          par hb = some hm ∧ mapGet hm "alg" = some (.str "none") ∧
          mapGet hm "kid" = none ∧ h = JwsHeader.fromMap hm) := by
  constructor
  · intro par input m h
    unfold decodeUnsecured at h
    rw [jwtFunnel_panic_iff] at h
    split at h
    case _ =>
      rename_i q0 q1 q2 heq
      simp only [Res.bind_panic_iff, liftOpt_panic_iff, liftJose_panic_iff,
        bailMsg_eq, ite_eq_iff, false_or, or_false, false_and, and_false,
        exists_false, exists_and_left, exists_and_right] at h
      rcases h with (⟨-, h⟩ | ⟨-, h⟩) | ⟨-, hb, hhb, hm, hhm, h⟩
      · simp at h
      · simp at h
      · rcases halg : mapGet hm "alg" with _ | j
        · simp [halg] at h
        · cases j <;> simp [halg] at h
          rename_i v
          by_cases hv : v = "none"
          · simp [hv] at h
            rcases hkid : mapGet hm "kid" with _ | j2 <;> simp [hkid] at h
          · simp [hv] at h
    case _ => simp [bailMsg_eq] at h
  · intro par input p h hok
    unfold decodeUnsecured at hok
    rw [jwtFunnel_ok_iff] at hok
    split at hok
    case _ =>
      rename_i q0 q1 q2 heq
      simp only [Res.bind_ok_iff, liftOpt_ok_iff, liftJose_ok_iff,
        bailMsg_eq, ite_eq_iff, false_or, or_false, false_and, and_false,
        exists_false, exists_and_left, exists_and_right] at hok
      rcases hok with ⟨⟨u, hu⟩, hok⟩
      rcases hu with ⟨-, hu⟩ | ⟨hlen, -⟩
      · simp at hu
      · have hq2 : q2 = [] := by
          rcases List.length_eq_zero.mp (by omega : q2.length = 0) with rfl
          rfl
        subst hq2
        rcases hok with ⟨hb, hhb, hm, hhm, hok⟩
        rcases halg : mapGet hm "alg" with _ | j
        · simp [halg] at hok
        · cases j <;> simp [halg] at hok
          rename_i v
          by_cases hv : v = "none"
          · subst hv
            simp at hok
            rcases hkid : mapGet hm "kid" with _ | j2 <;> simp [hkid] at hok
            rcases hok with ⟨pb, hpb, pm, hpm, hpay, hph⟩
            exact ⟨q0, q1, hb, hm, heq, hhb, hhm, halg, hkid, hph.2.2.symm⟩
          · simp [hv] at hok
    case _ => simp [bailMsg_eq] at hok

set_option maxRecDepth 10000 in
/-- Witness for C7: a concrete unsecured token decodes successfully, and
the theorem instantiated at it yields the three accepted-shape
conditions. -/
theorem C7_witness :
    ∃ p0 p1 hb hm,
      splitDot
          (joinDot [b64encode (cserMap [("alg", Json.str "none")]),
            b64encode (cserMap []), []]) = [p0, p1, []] ∧
        b64decode p0 = some hb ∧ cpar hb = some hm ∧
        mapGet hm "alg" = some (.str "none") ∧ mapGet hm "kid" = none ∧
        JwsHeader.fromMap [("alg", Json.str "none")] = JwsHeader.fromMap hm := by
  exact C7_decode_unsecured_conditions.2 cpar _ ⟨[], []⟩
    (JwsHeader.fromMap [("alg", Json.str "none")]) (by decide)

/-- CLAIM C8: with a base time set, an exp at or before it (equality
included) is rejected — as expired whenever the earlier nbf check does
not itself reject; an nbf strictly after it is rejected as not yet
valid; and an nbf equal to it is never rejected by the nbf check. -/
theorem C8_time_validation :
    ∀ (v : JwtPayloadValidator) (now t : Nat) (p : JwtPayload),
      v.baseTime = some t →
      ((∀ e nbfO, p.notBefore = .ok nbfO → p.expiresAt = .ok (some e) →
        e ≤ t →
        (∃ r, v.validate now p = .err r) ∧
        ((nbfO = none ∨ ∃ nbf, nbfO = some nbf ∧ nbf ≤ t) →
          v.validate now p = .err (.invalidClaim (.expired e)))) ∧
      (∀ nbf, p.notBefore = .ok (some nbf) → t < nbf →
        v.validate now p = .err (.invalidClaim (.notYetValid nbf))) ∧
      (p.notBefore = .ok (some t) →
        ∀ u, v.validate now p ≠ .err (.invalidClaim (.notYetValid u)))) := by
  intro v now t p hbase
  refine ⟨?_, ?_, ?_⟩
  · intro e nbfO hnbf hexp he
    constructor
    · rcases nbfO with _ | nbf
      · refine ⟨.invalidClaim (.expired e), ?_⟩
        unfold JwtPayloadValidator.validate
        simp [hbase, hnbf, hexp, Res.bind, he, nbfCheck, expCheck,
          claimFunnel, bailMsg]
      · by_cases hlt : t < nbf
        · refine ⟨.invalidClaim (.notYetValid nbf), ?_⟩
          unfold JwtPayloadValidator.validate
          simp [hbase, hnbf, hexp, Res.bind, hlt, nbfCheck, claimFunnel,
            bailMsg]
        · refine ⟨.invalidClaim (.expired e), ?_⟩
          unfold JwtPayloadValidator.validate
          simp [hbase, hnbf, hexp, Res.bind, hlt, he, nbfCheck, expCheck,
            claimFunnel, bailMsg]
    · intro hcond
      unfold JwtPayloadValidator.validate
      rcases hcond with rfl | ⟨nbf, rfl, hle⟩
      · simp [hbase, hnbf, hexp, Res.bind, he, nbfCheck, expCheck,
          claimFunnel, bailMsg]
      · simp [hbase, hnbf, hexp, Res.bind, he, Nat.not_lt.mpr hle,
          nbfCheck, expCheck, claimFunnel, bailMsg]
  · intro nbf hnbf hlt
    unfold JwtPayloadValidator.validate
    simp [hbase, hnbf, Res.bind, hlt, nbfCheck, claimFunnel, bailMsg]
  · intro hnbf u hcontra
    unfold JwtPayloadValidator.validate at hcontra
    rw [claimFunnel_err_iff] at hcontra
    simp only [hbase, Option.getD_some, hnbf] at hcontra
    rcases hcontra with ⟨m, hm, hinj⟩ | hjose
    · obtain rfl : m = .notYetValid u := by
        cases hinj
        rfl
      simp [lt_irrefl] at hm
      omega
    · simp [lt_irrefl] at hjose

/-- Witness for C8: at base time 100, a payload with exp 100 and nbf 100
is rejected exactly as expired, and never as not yet valid. -/
theorem C8_witness :
    JwtPayloadValidator.validate ⟨some 100, none, none, none, []⟩ 0
      ⟨[("exp", Json.num 100), ("nbf", Json.num 100)],
        [("exp", .systemTime 100), ("nbf", .systemTime 100)]⟩ =
      .err (.invalidClaim (.expired 100)) ∧
    JwtPayloadValidator.validate ⟨some 100, none, none, none, []⟩ 0
      ⟨[("exp", Json.num 100), ("nbf", Json.num 100)],
        [("exp", .systemTime 100), ("nbf", .systemTime 100)]⟩ ≠
      .err (.invalidClaim (.notYetValid 100)) := by
  constructor
  · exact ((C8_time_validation _ 0 100 _ rfl).1 100 (some 100) (by decide)
      (by decide) (by decide)).2 (Or.inr ⟨100, rfl, by decide⟩)
  · exact (C8_time_validation _ 0 100 _ rfl).2.2 (by decide) 100

/-- One validation step never touches cache entries for other claim
names. -/
theorem jwtSourcesStep_other (acc : SMap) (k : String) (v : Json)
    (s2 : SMap) (h : jwtSourcesStep acc k v = .ok s2) (key : String)
    (hk : k ≠ key) : sGet s2 key = sGet acc key := by
  unfold jwtSourcesStep at h
  split_ifs at h
  · cases v <;> simp_all
  · cases v <;> simp_all
    split at h
    · cases h
      exact sGet_sInsert_ne _ _ hk
    · cases h
  · cases v <;> simp_all
    split at h
    · cases h
      exact sGet_sInsert_ne _ _ hk
    · cases h
  · simp_all

/-- The validation loop never touches cache entries for claim names
absent from the remaining claims. -/
theorem collectJwtSources_preserve :
    ∀ (m : JMap) (acc res : SMap) (key : String),
      collectJwtSources acc m = .ok res → key ∉ m.map Prod.fst →
      sGet res key = sGet acc key
  | [], acc, res, key => by
    intro h hmem
    simp [collectJwtSources] at h
    subst h
    rfl
  | (k, v) :: rest, acc, res, key => by
    intro h hmem
    unfold collectJwtSources at h
    rcases hstep : jwtSourcesStep acc k v with e | s2 <;> rw [hstep] at h
    · cases h
    · have hk : k ≠ key := by
        intro e2
        exact hmem (by simp [e2])
      have hrest : key ∉ rest.map Prod.fst := fun h2 => hmem (by simp [h2])
      rw [collectJwtSources_preserve rest s2 res key h hrest]
      exact jwtSourcesStep_other acc k v s2 hstep key hk

/-- An array-form aud claim fills the typed cache with exactly its
strings. -/
theorem collectJwtSources_aud :
    ∀ (m : JMap) (acc res : SMap),
      collectJwtSources acc m = .ok res → (m.map Prod.fst).Nodup →
      ∀ vals ss, mapGet m "aud" = some (.arr vals) →
        allStrings vals = some ss →
        sGet res "aud" = some (.stringArray ss)
  | [], acc, res => by
    intro h hnd vals ss hget
    simp [mapGet] at hget
  | (k, v) :: rest, acc, res => by
    intro h hnd vals ss hget hss
    unfold collectJwtSources at h
    rcases hstep : jwtSourcesStep acc k v with e | s2 <;> rw [hstep] at h
    · cases h
    · by_cases hk : k = "aud"
      · subst hk
        have hv : v = .arr vals := by
          simp [mapGet] at hget
          exact hget
        subst hv
        have hs2 : s2 = sInsert acc "aud" (.stringArray ss) := by
          simp [jwtSourcesStep, hss] at hstep
          exact hstep.symm
        subst hs2
        have hrest : "aud" ∉ rest.map Prod.fst := by
          simp only [List.map_cons] at hnd
          exact (List.nodup_cons.mp hnd).1
        rw [collectJwtSources_preserve rest _ res "aud" h hrest,
          sGet_sInsert_self]
      · have hget2 : mapGet rest "aud" = some (.arr vals) := by
          simpa [mapGet, hk] using hget
        exact collectJwtSources_aud rest s2 res h
          (by
            simp only [List.map_cons] at hnd
            exact (List.nodup_cons.mp hnd).2)
          vals ss hget2 hss

/-- CLAIM C9 (counterexample): a validator expecting audience me accepts
a from_map-decoded payload whose aud claim is the string other — the
string form of aud never populates the typed cache, so the membership
check is silently skipped. -/
theorem C9_counterexample :
    JwtPayload.fromMap [("aud", Json.str "other")] =
      .ok ⟨[("aud", Json.str "other")], []⟩ ∧
    JwtPayloadValidator.validate ⟨none, none, none, some "me", []⟩ 0
      ⟨[("aud", Json.str "other")], []⟩ = .ok () ∧
    ("me" : String) ≠ "other" := by
  refine ⟨by decide, by decide, by decide⟩

/-- CLAIM C9 (amended): audience membership is enforced exactly for the
array form — when a from_map-decoded payload carries an aud claim that
is an array of strings, validation succeeds only if the expected
audience is among them; a string-form aud claim is not checked. -/
theorem C9_audience_array_enforced :
    ∀ (v : JwtPayloadValidator) (now : Nat) (m : JMap) (p : JwtPayload)
      (aud : String) (vals : List Json) (ss : List String),
      v.audience = some aud →
      JwtPayload.fromMap m = .ok p →
      (m.map Prod.fst).Nodup →
      mapGet m "aud" = some (.arr vals) →
      allStrings vals = some ss →
      v.validate now p = .ok () →
      aud ∈ ss := by
  intro v now m p aud vals ss hva hfrom hnd hget hss hok
  have hsources : sGet p.sources "aud" = some (.stringArray ss) := by
    unfold JwtPayload.fromMap at hfrom
    rcases hcol : collectJwtSources [] m with e | s <;> rw [hcol] at hfrom
    · cases hfrom
    · cases hfrom
      exact collectJwtSources_aud m [] s hcol hnd vals ss hget hss
  have haudience : p.audience = .ok (some ss) := by
    unfold JwtPayload.audience
    rw [hsources]
  unfold JwtPayloadValidator.validate at hok
  rw [claimFunnel_ok_iff] at hok
  simp only [Res.bind_ok_iff] at hok
  obtain ⟨-, -, -, -, -, -, -, -, -, -, -, -, u, haud, -⟩ := hok
  rw [hva] at haud
  unfold audCheck at haud
  rw [haudience] at haud
  by_contra hmem
  simp [Res.bind, hmem] at haud

/-- Witness for the amended C9: a validator expecting me accepts a
payload whose array aud claim lists me, and the theorem yields the
membership. -/
theorem C9_witness : ("me" : String) ∈ ["me", "x"] := by
  exact C9_audience_array_enforced ⟨none, none, none, some "me", []⟩ 0
    [("aud", Json.arr [Json.str "me", Json.str "x"])]
    ⟨[("aud", Json.arr [Json.str "me", Json.str "x"])],
      [("aud", .stringArray ["me", "x"])]⟩
    "me" [Json.str "me", Json.str "x"] ["me", "x"]
    rfl (by decide) (by decide) (by decide) (by decide) (by decide)

/-- After a successful merge, the tail of flattened serialization can
never surface a duplicate-key failure, provided the encrypter and
content-encryption capabilities do not themselves return one. -/
theorem serializeFlattenedRest_no_dup (ctx : JweContext)
    (ser : JMap → List Nat) (serStr : JMap → List Char)
    (rand : Nat → List Nat) (payload : List Nat)
    (uOpt hOpt : Option JweHeader) (protectedH : JweHeader) (merged2 : JMap)
    (selector : JweHeader → Option JweEncrypter)
    (hencB : ∀ mh enc, selector mh = some enc →
      ∀ n h2 e, enc.encrypt n h2 = .error e →
        ∀ k, e ≠ .invalidJweFormat (.duplicateKey k))
    (hcencB : ∀ name c, getContentEncryption ctx name = some c →
      ∀ key iv msg aad e, c.encrypt key iv msg aad = .error e →
        ∀ k, e ≠ .invalidJweFormat (.duplicateKey k))
    (i : Inner)
    (hres : serializeFlattenedRest ctx ser serStr rand payload uOpt hOpt
      protectedH merged2 selector = .err i) (k : String) :
    i ≠ .msg (.duplicateKey k) ∧
      i ≠ .jose (.invalidJweFormat (.duplicateKey k)) := by
  unfold serializeFlattenedRest at hres
  rcases hsel : selector (JweHeader.fromMap merged2) with _ | enc <;>
    rw [hsel] at hres
  · simp [bailMsg] at hres
    subst hres
    constructor <;> simp
  · rcases hce : (JweHeader.fromMap merged2).contentEncryption with pm | ie | encO
    · rw [hce] at hres
      simp [Res.bind] at hres
    · exact absurd hce (JweHeader.contentEncryption_ne_err _ ie)
    · rw [hce] at hres
      simp only [Res.bind] at hres
      rcases hrc : resolveCenc ctx encO with pm | ie | cenc
      · rw [hrc] at hres
        simp [Res.bind] at hres
      · rw [hrc] at hres
        simp [Res.bind] at hres
        subst hres
        rcases resolveCenc_err_iff.mp hrc with ⟨-, rfl⟩ | ⟨e2, -, -, rfl⟩ <;>
          constructor <;> simp
      · rw [hrc] at hres
        simp only [Res.bind] at hres
        rcases hcz : (JweHeader.fromMap merged2).compression with pm | ie | zipO
        · rw [hcz] at hres
          simp [Res.bind] at hres
        · exact absurd hcz (JweHeader.compression_ne_err _ ie)
        · rw [hcz] at hres
          simp only [Res.bind] at hres
          rcases hrz : resolveComp ctx zipO with pm | ie | compression
          · rw [hrz] at hres
            simp [Res.bind] at hres
          · rw [hrz] at hres
            simp [Res.bind] at hres
            subst hres
            obtain ⟨z2, -, -, rfl⟩ := resolveComp_err_iff.mp hrz
            constructor <;> simp
          · rw [hrz] at hres
            simp only [Res.bind] at hres
            rcases hcs : compressStep compression payload with pm | ie | content
            · rw [hcs] at hres
              simp [Res.bind] at hres
            · rw [hcs] at hres
              simp [Res.bind] at hres
              subst hres
              obtain ⟨c2, -, -, rfl⟩ := compressStep_err_iff.mp hcs
              constructor <;> simp
            · rw [hcs] at hres
              simp only [Res.bind] at hres
              rcases hE : enc.encrypt cenc.keyLen protectedH with eJ | r
              · rw [hE] at hres
                simp [Res.bind, liftJose] at hres
                subst hres
                refine ⟨by simp, ?_⟩
                intro hj
                obtain rfl : eJ = .invalidJweFormat (.duplicateKey k) := by
                  cases hj
                  rfl
                exact hencB _ enc hsel _ _ _ hE k rfl
              · rw [hE] at hres
                simp only [Res.bind, liftJose] at hres
                obtain ⟨h1, key, ek⟩ := r
                simp only [] at hres
                rcases hC : cenc.encrypt key (rand cenc.ivLen)
                    content (ser (match mapGet merged2 "kid" with
                      | none =>
                        match enc.keyId with
                        | some kid => h1.setKeyId kid
                        | none => h1
                      | some _ => h1).claims) with eJ | ctag
                · rw [hC] at hres
                  simp [Res.bind, liftJose] at hres
                  subst hres
                  refine ⟨by simp, ?_⟩
                  intro hj
                  obtain rfl : eJ = .invalidJweFormat (.duplicateKey k) := by
                    cases hj
                    rfl
                  exact hcencB _ cenc (resolveCenc_ok_iff.mp hrc).choose_spec.2
                    _ _ _ _ _ hC k rfl
                · rw [hC] at hres
                  obtain ⟨ct, tag⟩ := ctag
                  simp [Res.bind, liftJose] at hres

/-- The protected projection agrees with the claim-set projection. -/
theorem protectedHeaderOf_claims (o : Option JweHeader) :
    (protectedHeaderOf o).claims = headerClaimsOf o := by
  cases o <;> rfl

/-- CLAIM C10: flattened-JSON serialization fails with a duplicate-key
error whenever a claim name appears in more than one of the protected,
unprotected and per-recipient sets; and when the three sets are pairwise
disjoint (each with distinct claim names, and capabilities that do not
fabricate the error), it never raises a duplicate-key error. -/
theorem C10_flattened_duplicate_keys :
    ∀ (ctx : JweContext) (ser : JMap → List Nat) (serStr : JMap → List Char)
      (rand : Nat → List Nat) (payload : List Nat)
      (pOpt uOpt hOpt : Option JweHeader)
      (selector : JweHeader → Option JweEncrypter),
      ((∃ k,
        (mapContains (headerClaimsOf pOpt) k = true ∧
          mapContains (headerClaimsOf uOpt) k = true) ∨
        (mapContains (headerClaimsOf pOpt) k = true ∧
          mapContains (headerClaimsOf hOpt) k = true) ∨
        (mapContains (headerClaimsOf uOpt) k = true ∧
          mapContains (headerClaimsOf hOpt) k = true)) →
        ∃ k2, serializeFlattenedJsonWithSelector ctx ser serStr rand payload
          pOpt uOpt hOpt selector =
            .err (.invalidJweFormat (.duplicateKey k2))) ∧
      ((∀ k, mapContains (headerClaimsOf pOpt) k = true →
          mapContains (headerClaimsOf uOpt) k = true → False) →
        (∀ k, mapContains (headerClaimsOf pOpt) k = true →
          mapContains (headerClaimsOf hOpt) k = true → False) →
        (∀ k, mapContains (headerClaimsOf uOpt) k = true →
          mapContains (headerClaimsOf hOpt) k = true → False) →
        ((headerClaimsOf uOpt).map Prod.fst).Nodup →
        ((headerClaimsOf hOpt).map Prod.fst).Nodup →
        (∀ mh enc, selector mh = some enc →
          ∀ n h2 e, enc.encrypt n h2 = .error e →
            ∀ k, e ≠ .invalidJweFormat (.duplicateKey k)) →
        (∀ name c, getContentEncryption ctx name = some c →
          ∀ key iv msg aad e, c.encrypt key iv msg aad = .error e →
            ∀ k, e ≠ .invalidJweFormat (.duplicateKey k)) →
        ∀ k, serializeFlattenedJsonWithSelector ctx ser serStr rand payload
          pOpt uOpt hOpt selector ≠
            .err (.invalidJweFormat (.duplicateKey k))) := by
  intro ctx ser serStr rand payload pOpt uOpt hOpt selector
  constructor
  · rintro ⟨k, hsh⟩
    unfold serializeFlattenedJsonWithSelector
    rcases hsh with ⟨hp, hu⟩ | ⟨hp, hh⟩ | ⟨hu, hh⟩
    · rcases uOpt with _ | u
      · simp [headerClaimsOf, mapContains, mapGet] at hu
      · rw [← protectedHeaderOf_claims] at hp
        obtain ⟨k2, hmerge⟩ :=
          mergeClaims_shared_err u.claims (protectedHeaderOf pOpt).claims k hp
            (by simpa [headerClaimsOf] using hu)
        exact ⟨k2, by simp [hmerge, Res.bind, jweFunnel]⟩
    · rcases hOpt with _ | hh0
      · simp [headerClaimsOf, mapContains, mapGet] at hh
      · rw [← protectedHeaderOf_claims] at hp
        have hhc : mapContains hh0.claims k = true := by
          simpa [headerClaimsOf] using hh
        rcases uOpt with _ | u
        · obtain ⟨k2, hmerge⟩ :=
            mergeClaims_shared_err hh0.claims (protectedHeaderOf pOpt).claims
              k hp hhc
          exact ⟨k2, by simp [hmerge, Res.bind, jweFunnel]⟩
        · rcases hm1 : mergeClaims (protectedHeaderOf pOpt).claims u.claims
              with pm | i1 | out1
          · exact absurd hm1 (mergeClaims_ne_panic _ _ _)
          · obtain ⟨k2, hk2⟩ := mergeClaims_err_shape _ _ _ hm1
            subst hk2
            exact ⟨k2, by simp [hm1, Res.bind, jweFunnel]⟩
          · have hout1 : mapContains out1 k = true :=
              (mergeClaims_ok_contains _ _ _ hm1 k).mpr (Or.inl hp)
            obtain ⟨k2, hmerge⟩ :=
              mergeClaims_shared_err hh0.claims out1 k hout1 hhc
            exact ⟨k2, by simp [hm1, hmerge, Res.bind, jweFunnel]⟩
    · rcases uOpt with _ | u
      · simp [headerClaimsOf, mapContains, mapGet] at hu
      · rcases hOpt with _ | hh0
        · simp [headerClaimsOf, mapContains, mapGet] at hh
        · have huc : mapContains u.claims k = true := by
            simpa [headerClaimsOf] using hu
          have hhc : mapContains hh0.claims k = true := by
            simpa [headerClaimsOf] using hh
          rcases hm1 : mergeClaims (protectedHeaderOf pOpt).claims u.claims
              with pm | i1 | out1
          · exact absurd hm1 (mergeClaims_ne_panic _ _ _)
          · obtain ⟨k2, hk2⟩ := mergeClaims_err_shape _ _ _ hm1
            subst hk2
            exact ⟨k2, by simp [hm1, Res.bind, jweFunnel]⟩
          · have hout1 : mapContains out1 k = true :=
              (mergeClaims_ok_contains _ _ _ hm1 k).mpr (Or.inr huc)
            obtain ⟨k2, hmerge⟩ :=
              mergeClaims_shared_err hh0.claims out1 k hout1 hhc
            exact ⟨k2, by simp [hm1, hmerge, Res.bind, jweFunnel]⟩
  · intro hdisjPU hdisjPH hdisjUH hndU hndH hencB hcencB k hcontra
    have hM1 : ∃ out1,
        (match uOpt with
         | some u => mergeClaims (protectedHeaderOf pOpt).claims u.claims
         | none => .ok (protectedHeaderOf pOpt).claims) = .ok out1 ∧
        ∀ k2, mapContains out1 k2 = true →
          (mapContains (headerClaimsOf pOpt) k2 = true ∨
            mapContains (headerClaimsOf uOpt) k2 = true) := by
      rcases uOpt with _ | u
      · refine ⟨(protectedHeaderOf pOpt).claims, rfl, fun k2 h2 => Or.inl ?_⟩
        rwa [protectedHeaderOf_claims] at h2
      · obtain ⟨out1, hout1⟩ :=
          mergeClaims_disjoint_ok u.claims (protectedHeaderOf pOpt).claims
            (fun k2 ha hb => hdisjPU k2
              (by rwa [protectedHeaderOf_claims] at ha) hb) hndU
        refine ⟨out1, hout1, fun k2 h2 => ?_⟩
        rcases (mergeClaims_ok_contains _ _ _ hout1 k2).mp h2 with ha | hb
        · exact Or.inl (by rwa [protectedHeaderOf_claims] at ha)
        · exact Or.inr hb
    obtain ⟨out1, hout1, hmem1⟩ := hM1
    have hM2 : ∃ out2,
        (match hOpt with
         | some hh => mergeClaims out1 hh.claims
         | none => .ok out1) = .ok out2 := by
      rcases hOpt with _ | hh0
      · exact ⟨out1, rfl⟩
      · exact mergeClaims_disjoint_ok hh0.claims out1
          (fun k2 ha hb => by
            rcases hmem1 k2 ha with hpa | hua
            · exact hdisjPH k2 hpa hb
            · exact hdisjUH k2 hua hb) hndH
    obtain ⟨out2, hout2⟩ := hM2
    unfold serializeFlattenedJsonWithSelector at hcontra
    rw [jweFunnel_err_iff] at hcontra
    rw [hout1] at hcontra
    simp only [Res.bind] at hcontra
    rw [hout2] at hcontra
    simp only [Res.bind] at hcontra
    rcases hcontra with ⟨m, hm, hinj⟩ | hjose
    · obtain rfl : m = .duplicateKey k := by
        cases hinj
        rfl
      exact (serializeFlattenedRest_no_dup ctx ser serStr rand payload uOpt
        hOpt (protectedHeaderOf pOpt) out2 selector hencB hcencB _ hm k).1 rfl
    · exact (serializeFlattenedRest_no_dup ctx ser serStr rand payload uOpt
        hOpt (protectedHeaderOf pOpt) out2 selector hencB hcencB _ hjose k).2
        rfl

/-- Every failure of the decrypting tail is a base64 message, an io
message, or a JoseError propagated from the decrypter or the content
cipher. -/
theorem deserializeCoreTail_err_shape (ek64 iv64 ct64 tag64 : List Char)
    (headerBytes : List Nat) (header : JweHeader) (decrypter : JweDecrypter)
    (cenc : JweCenc) (compression : Option JweComp) (i : Inner)
    (h : deserializeCoreTail ek64 iv64 ct64 tag64 headerBytes header
      decrypter cenc compression = .err i) :
    i = .msg .base64Invalid ∨ i = .msg .ioFailure ∨
      ∃ e, i = .jose e ∧
        ((∃ ek, decrypter.decrypt header ek = .error e) ∨
          ∃ key iv ct tg, cenc.decrypt key iv ct headerBytes tg = .error e) := by
  unfold deserializeCoreTail at h
  rcases hek : b64decode ek64 with _ | ek <;> rw [hek] at h
  · simp [Res.bind, liftOpt] at h
    exact Or.inl h.symm
  · simp only [Res.bind, liftOpt] at h
    rcases hdec : decrypter.decrypt header ek with e | key <;> rw [hdec] at h
    · simp [Res.bind, liftJose] at h
      exact Or.inr (Or.inr ⟨e, h.symm, Or.inl ⟨ek, hdec⟩⟩)
    · simp only [Res.bind, liftJose] at h
      rcases hiv : b64decode iv64 with _ | iv <;> rw [hiv] at h
      · simp [Res.bind, liftOpt] at h
        exact Or.inl h.symm
      · simp only [Res.bind, liftOpt] at h
        rcases hct : b64decode ct64 with _ | ct <;> rw [hct] at h
        · simp [Res.bind, liftOpt] at h
          exact Or.inl h.symm
        · simp only [Res.bind, liftOpt] at h
          rcases htg : b64decode tag64 with _ | tg <;> rw [htg] at h
          · simp [Res.bind, liftOpt] at h
            exact Or.inl h.symm
          · simp only [Res.bind, liftOpt] at h
            rcases hcd : cenc.decrypt key iv ct headerBytes tg with e | content <;>
              rw [hcd] at h
            · simp [Res.bind, liftJose] at h
              exact Or.inr (Or.inr ⟨e, h.symm,
                Or.inr ⟨key, iv, ct, tg, hcd⟩⟩)
            · simp only [Res.bind, liftJose] at h
              rcases hds : decompressStep compression content with pm | ie | c2 <;>
                rw [hds] at h
              · simp [Res.bind] at h
              · simp [Res.bind] at h
                subst h
                obtain ⟨c3, -, -, rfl⟩ := decompressStep_err_iff.mp hds
                exact Or.inr (Or.inl rfl)
              · simp [Res.bind] at h

/-- Classification of every failure of the post-parse deserialization
core: a selector error passes through; otherwise one of the named bail
messages, with the alg and kid messages arising exactly from their check
conditions; or a capability error from the tail. -/
theorem deserializeCore_err_shape (ctx : JweContext)
    (ek64 iv64 ct64 tag64 : List Char) (headerBytes : List Nat)
    (header : JweHeader)
    (selector : JweHeader → Except JoseError (Option JweDecrypter))
    (i : Inner)
    (h : deserializeCore ctx ek64 iv64 ct64 tag64 headerBytes header
      selector = .err i) :
    (∃ e, selector header = .error e ∧ i = .jose e) ∨
      i = .msg .decrypterNotFound ∨ i = .msg .encRequired ∨
      (∃ n, i = .msg (.encNotRegistered n)) ∨
      (∃ n, i = .msg (.zipNotRegistered n)) ∨
      (∃ d, selector header = .ok (some d) ∧
        ((header.algorithm = none ∧ i = .msg .algRequired) ∨
          (∃ v, header.algorithm = some v ∧ v ≠ d.algName ∧
            i = .msg (.algMismatch d.algName v)) ∨
          (∃ dk, d.keyId = some dk ∧ header.keyId = none ∧
            i = .msg .kidRequired) ∨
          (∃ dk a, d.keyId = some dk ∧ header.keyId = some a ∧ dk ≠ a ∧
            i = .msg (.kidMismatch a)) ∨
          i = .msg .base64Invalid ∨ i = .msg .ioFailure ∨
          (∃ e, i = .jose e ∧
            ((∃ ek, d.decrypt header ek = .error e) ∨
              ∃ c, (∃ n, getContentEncryption ctx n = some c) ∧
                ∃ key iv ct tg,
                  c.decrypt key iv ct headerBytes tg = .error e)))) := by
  unfold deserializeCore at h
  rcases hsel : selector header with e | dOpt <;> rw [hsel] at h
  · simp [Res.bind, liftJose] at h
    exact Or.inl ⟨e, rfl, h.symm⟩
  · simp only [Res.bind, liftJose] at h
    rcases dOpt with _ | d
    · simp [bailMsg] at h
      exact Or.inr (Or.inl h.symm)
    · simp only [] at h
      rcases hce : header.contentEncryption with pm | ie | encO <;>
        rw [hce] at h
      · simp [Res.bind] at h
      · exact absurd hce (JweHeader.contentEncryption_ne_err _ ie)
      · simp only [Res.bind] at h
        rcases hrc : resolveCenc ctx encO with pm | ie | cenc <;> rw [hrc] at h
        · simp [Res.bind] at h
        · simp [Res.bind] at h
          subst h
          rcases resolveCenc_err_iff.mp hrc with ⟨-, rfl⟩ | ⟨n, -, -, rfl⟩
          · exact Or.inr (Or.inr (Or.inl rfl))
          · exact Or.inr (Or.inr (Or.inr (Or.inl ⟨n, rfl⟩)))
        · simp only [Res.bind] at h
          rcases hcz : header.compression with pm | ie | zipO <;> rw [hcz] at h
          · simp [Res.bind] at h
          · exact absurd hcz (JweHeader.compression_ne_err _ ie)
          · simp only [Res.bind] at h
            rcases hrz : resolveComp ctx zipO with pm | ie | compression <;>
              rw [hrz] at h
            · simp [Res.bind] at h
            · simp [Res.bind] at h
              subst h
              obtain ⟨n, -, -, rfl⟩ := resolveComp_err_iff.mp hrz
              exact Or.inr (Or.inr (Or.inr (Or.inr (Or.inl ⟨n, rfl⟩))))
            · simp only [Res.bind] at h
              rcases hac : algCheck d header.algorithm with pm | ie | u <;>
                rw [hac] at h
              · simp [Res.bind] at h
              · simp [Res.bind] at h
                subst h
                refine Or.inr (Or.inr (Or.inr (Or.inr (Or.inr
                  ⟨d, rfl, ?_⟩))))
                rcases algCheck_err_iff.mp hac with ⟨ha, rfl⟩ |
                  ⟨v, hv, hne, rfl⟩
                · exact Or.inl ⟨ha, rfl⟩
                · exact Or.inr (Or.inl ⟨v, hv, hne, rfl⟩)
              · simp only [Res.bind] at h
                rcases hkc : kidCheck d header.keyId with pm | ie | u2 <;>
                  rw [hkc] at h
                · simp [Res.bind] at h
                · simp [Res.bind] at h
                  subst h
                  refine Or.inr (Or.inr (Or.inr (Or.inr (Or.inr
                    ⟨d, rfl, ?_⟩))))
                  obtain ⟨dk, hdk, hrest⟩ := kidCheck_err_iff.mp hkc
                  rcases hrest with ⟨hn, rfl⟩ | ⟨a, ha, hne, rfl⟩
                  · exact Or.inr (Or.inr (Or.inl ⟨dk, hdk, hn, rfl⟩))
                  · exact Or.inr (Or.inr (Or.inr (Or.inl
                      ⟨dk, a, hdk, ha, hne, rfl⟩)))
                · simp only [Res.bind] at h
                  rcases deserializeCoreTail_err_shape _ _ _ _ _ _ _ _ _ _ h
                    with rfl | rfl | ⟨e, rfl, horigin⟩
                  · exact Or.inr (Or.inr (Or.inr (Or.inr (Or.inr
                      ⟨d, rfl, Or.inr (Or.inr (Or.inr (Or.inr
                        (Or.inl rfl))))⟩))))
                  · exact Or.inr (Or.inr (Or.inr (Or.inr (Or.inr
                      ⟨d, rfl, Or.inr (Or.inr (Or.inr (Or.inr (Or.inr
                        (Or.inl rfl)))))⟩))))
                  · refine Or.inr (Or.inr (Or.inr (Or.inr (Or.inr
                      ⟨d, rfl, Or.inr (Or.inr (Or.inr (Or.inr (Or.inr
                        (Or.inr ⟨e, rfl, ?_⟩)))))⟩))))
                    rcases horigin with hd | ⟨key, iv, ct, tg, hc⟩
                    · exact Or.inl hd
                    · obtain ⟨n, -, hn⟩ := resolveCenc_ok_iff.mp hrc
                      exact Or.inr ⟨cenc, ⟨n, hn⟩, key, iv, ct, tg, hc⟩

/-- The typed alg accessor answers exactly the string-valued raw claim. -/
theorem JweHeader.algorithm_eq_some_iff {h : JweHeader} {v : String} :
    h.algorithm = some v ↔ mapGet h.claims "alg" = some (.str v) := by
  unfold JweHeader.algorithm
  rcases hm : mapGet h.claims "alg" with _ | j
  · simp
  · cases j <;> simp

/-- The typed kid accessor answers exactly the string-valued raw claim. -/
theorem JweHeader.keyId_eq_some_iff {h : JweHeader} {v : String} :
    h.keyId = some v ↔ mapGet h.claims "kid" = some (.str v) := by
  unfold JweHeader.keyId
  rcases hm : mapGet h.claims "kid" with _ | j
  · simp
  · cases j <;> simp

/-- Inversion of a successful run of the deserialization core: the
returned header is the parsed one, and the alg and kid checks passed for
the selected decrypter. -/
theorem deserializeCore_ok_inv (ctx : JweContext)
    (ek64 iv64 ct64 tag64 : List Char) (hb : List Nat) (header : JweHeader)
    (selector : JweHeader → Except JoseError (Option JweDecrypter))
    (c : List Nat) (h : JweHeader)
    (hok : deserializeCore ctx ek64 iv64 ct64 tag64 hb header selector =
      .ok (c, h)) :
    h = header ∧
      ∃ d, selector header = .ok (some d) ∧
        header.algorithm = some d.algName ∧
        (d.keyId = none ∨ ∃ dk, d.keyId = some dk ∧
          header.keyId = some dk) := by
  unfold deserializeCore deserializeCoreTail at hok
  rcases hsel : selector header with e | dOpt
  · rw [hsel] at hok
    simp [Res.bind, liftJose] at hok
  · rw [hsel] at hok
    rcases dOpt with _ | d
    · simp [Res.bind, liftJose, bailMsg] at hok
    · simp only [Res.bind, liftJose] at hok
      rcases hce : header.contentEncryption with pm | ie | encO <;>
        rw [hce] at hok
      · simp [Res.bind] at hok
      · simp [Res.bind] at hok
      · simp only [Res.bind] at hok
        rcases hrc : resolveCenc ctx encO with pm | ie | cenc <;>
          rw [hrc] at hok
        · simp [Res.bind] at hok
        · simp [Res.bind] at hok
        · simp only [Res.bind] at hok
          rcases hcz : header.compression with pm | ie | zipO <;>
            rw [hcz] at hok
          · simp [Res.bind] at hok
          · simp [Res.bind] at hok
          · simp only [Res.bind] at hok
            rcases hrz : resolveComp ctx zipO with pm | ie | compression <;>
              rw [hrz] at hok
            · simp [Res.bind] at hok
            · simp [Res.bind] at hok
            · simp only [Res.bind] at hok
              rcases hac : algCheck d header.algorithm with pm | ie | u <;>
                rw [hac] at hok
              · simp [Res.bind] at hok
              · simp [Res.bind] at hok
              · simp only [Res.bind] at hok
                rcases hkc : kidCheck d header.keyId with pm | ie | u2 <;>
                  rw [hkc] at hok
                · simp [Res.bind] at hok
                · simp [Res.bind] at hok
                · simp only [Res.bind] at hok
                  rcases hek : b64decode ek64 with _ | ek <;> rw [hek] at hok
                  · simp [Res.bind, liftOpt] at hok
                  · simp only [Res.bind, liftOpt] at hok
                    rcases hdec : d.decrypt header ek with e2 | key <;>
                      rw [hdec] at hok
                    · simp [Res.bind, liftJose] at hok
                    · simp only [Res.bind, liftJose] at hok
                      rcases hiv : b64decode iv64 with _ | iv <;>
                        rw [hiv] at hok
                      · simp [Res.bind, liftOpt] at hok
                      · simp only [Res.bind, liftOpt] at hok
                        rcases hct : b64decode ct64 with _ | ct <;>
                          rw [hct] at hok
                        · simp [Res.bind, liftOpt] at hok
                        · simp only [Res.bind, liftOpt] at hok
                          rcases htg : b64decode tag64 with _ | tg <;>
                            rw [htg] at hok
                          · simp [Res.bind, liftOpt] at hok
                          · simp only [Res.bind, liftOpt] at hok
                            rcases hcd : cenc.decrypt key iv ct hb tg
                                with e2 | content <;> rw [hcd] at hok
                            · simp [Res.bind, liftJose] at hok
                            · simp only [Res.bind, liftJose] at hok
                              rcases hds : decompressStep compression content
                                  with pm | ie | c2 <;> rw [hds] at hok
                              · simp [Res.bind] at hok
                              · simp [Res.bind] at hok
                              · simp only [Res.bind] at hok
                                simp only [Res.ok.injEq, Prod.mk.injEq]
                                  at hok
                                obtain ⟨rfl, rfl⟩ := hok
                                exact ⟨rfl, d, rfl,
                                  algCheck_ok_iff.mp hac,
                                  kidCheck_ok_iff.mp hkc⟩

/-- CLAIM C5: compact deserialization succeeds only with a header whose
alg claim is the string naming the decrypter's algorithm and — when the
decrypter has a configured key id — whose kid claim is that string; and
when both conditions hold on the parsed header, the core never raises
any of the four alg/kid check errors. -/
theorem C5_alg_kid_enforcement :
    (∀ (ctx : JweContext) (par : List Nat → Option JMap) (input : List Char)
      (D : JweDecrypter) (c : List Nat) (h : JweHeader),
      deserializeCompact ctx par input D = .ok (c, h) →
      mapGet h.claims "alg" = some (.str D.algName) ∧
      ∀ dk, D.keyId = some dk → mapGet h.claims "kid" = some (.str dk)) ∧
    (∀ (ctx : JweContext) (ek64 iv64 ct64 tag64 : List Char)
      (hb : List Nat) (header : JweHeader) (D : JweDecrypter),
      header.algorithm = some D.algName →
      (∀ dk, D.keyId = some dk → header.keyId = some dk) →
      ∀ x y z i,
        deserializeCore ctx ek64 iv64 ct64 tag64 hb header
          (fun _ => .ok (some D)) = .err i →
        i ≠ .msg (.algMismatch x y) ∧ i ≠ .msg .algRequired ∧
        i ≠ .msg (.kidMismatch z) ∧ i ≠ .msg .kidRequired) := by
  constructor
  · intro ctx par input D c h hok
    unfold deserializeCompact deserializeCompactWithSelector at hok
    rw [jweFunnel_ok_iff] at hok
    split at hok
    case _ =>
      simp only [Res.bind_ok_iff, liftOpt_ok_iff] at hok
      obtain ⟨hb, -, hm, -, hcore⟩ := hok
      obtain ⟨rfl, d, hseld, halg, hkid⟩ :=
        deserializeCore_ok_inv _ _ _ _ _ _ _ _ _ _ hcore
      obtain rfl : d = D := by
        cases hseld
        rfl
      refine ⟨JweHeader.algorithm_eq_some_iff.mp halg, ?_⟩
      intro dk hdk
      rcases hkid with hnone | ⟨dk2, hdk2, hkid2⟩
      · rw [hdk] at hnone
        cases hnone
      · rw [hdk] at hdk2
        obtain rfl : dk2 = dk := by
          cases hdk2
          rfl
        exact JweHeader.keyId_eq_some_iff.mp hkid2
    case _ => simp [bailMsg] at hok
  · intro ctx ek64 iv64 ct64 tag64 hb header D halg hkid x y z i hcore
    have hcls := deserializeCore_err_shape _ _ _ _ _ _ _ _ _ hcore
    rcases hcls with ⟨e, he, -⟩ | rfl | rfl | ⟨n, rfl⟩ | ⟨n, rfl⟩ |
      ⟨d, hseld, hrest⟩
    · cases he
    · simp
    · simp
    · simp
    · simp
    · have he : d = D := by
        cases hseld
        rfl
      have halg2 : header.algorithm = some d.algName := by
        rw [he]
        exact halg
      have hkid2 : ∀ dk, d.keyId = some dk → header.keyId = some dk := by
        rw [he]
        exact hkid
      rcases hrest with ⟨hnone, rfl⟩ | ⟨v, hv, hne, rfl⟩ |
        ⟨dk, hdk, hn, rfl⟩ | ⟨dk, a, hdk, ha, hne, rfl⟩ | rfl | rfl |
        ⟨e, rfl, -⟩
      · rw [halg2] at hnone
        cases hnone
      · rw [halg2] at hv
        have hv2 : v = d.algName := by
          cases hv
          rfl
        exact absurd hv2 hne
      · rw [hkid2 dk hdk] at hn
        cases hn
      · rw [hkid2 dk hdk] at ha
        have ha2 : dk = a := by
          cases ha
          rfl
        exact absurd ha2 hne
      · simp
      · simp
      · simp

/-- CLAIM C4: every typed failure of compact deserialization with a
fixed decrypter carries the invalid-jwe-format kind, provided — as the
specification states for the absent algorithm implementations — the
decrypter's unwrap and the content cipher report their own failures with
that same kind. -/
theorem C4_uniform_error_kind :
    ∀ (ctx : JweContext) (par : List Nat → Option JMap) (input : List Char)
      (D : JweDecrypter),
      (∀ h ek e, D.decrypt h ek = .error e →
        ∃ m, e = .invalidJweFormat m) →
      (∀ n c, getContentEncryption ctx n = some c →
        ∀ key iv ct aad tg e, c.decrypt key iv ct aad tg = .error e →
          ∃ m, e = .invalidJweFormat m) →
      ∀ e, deserializeCompact ctx par input D = .err e →
        ∃ m, e = .invalidJweFormat m := by
  intro ctx par input D hD hcenc e herr
  unfold deserializeCompact deserializeCompactWithSelector at herr
  rw [jweFunnel_err_iff] at herr
  rcases herr with ⟨m, -, rfl⟩ | hjose
  · exact ⟨m, rfl⟩
  · split at hjose
    case _ =>
      simp only [Res.bind_err_iff, liftOpt_err_iff, liftOpt_ok_iff] at hjose
      rcases hjose with ⟨-, he⟩ | ⟨hb, -, hjose⟩
      · cases he
      · rcases hjose with ⟨-, he⟩ | ⟨hm, -, hcore⟩
        · cases he
        · have hcls := deserializeCore_err_shape _ _ _ _ _ _ _ _ _ hcore
          rcases hcls with ⟨e2, he2, -⟩ | he | he | ⟨n, he⟩ | ⟨n, he⟩ |
            ⟨d, hseld, hrest⟩
          · cases he2
          · cases he
          · cases he
          · cases he
          · cases he
          · rcases hrest with ⟨-, he⟩ | ⟨v, -, -, he⟩ | ⟨dk, -, -, he⟩ |
              ⟨dk, a, -, -, -, he⟩ | he | he | ⟨e2, he2, horigin⟩
            · cases he
            · cases he
            · cases he
            · cases he
            · cases he
            · cases he
            · obtain rfl : e2 = e := by
                cases he2
                rfl
              obtain rfl : d = D := by
                cases hseld
                rfl
              rcases horigin with ⟨ek, hdec⟩ | ⟨c, ⟨n, hc⟩, key, iv, ct, tg, hdec⟩
              · exact hD _ _ _ hdec
              · exact hcenc _ _ hc _ _ _ _ _ _ hdec
    case _ => simp [bailMsg] at hjose

set_option maxRecDepth 10000 in
/-- Witness for C5: a concrete compact token decrypted by the dir
decrypter has alg dir in its header, and a concrete core failure under
passing checks is none of the four check errors. -/
theorem C5_witness :
    (mapGet (JweHeader.fromMap [("alg", Json.str "dir"),
        ("enc", Json.str "A128CBC-HS256")]).claims "alg" =
      some (.str (dirDecrypter none).algName) ∧
      ∀ dk, (dirDecrypter none).keyId = some dk →
        mapGet (JweHeader.fromMap [("alg", Json.str "dir"),
          ("enc", Json.str "A128CBC-HS256")]).claims "kid" =
            some (.str dk)) ∧
    (Inner.msg .base64Invalid ≠ .msg (.algMismatch "x" "x") ∧
      Inner.msg .base64Invalid ≠ .msg .algRequired ∧
      Inner.msg .base64Invalid ≠ .msg (.kidMismatch "x") ∧
      Inner.msg .base64Invalid ≠ .msg .kidRequired) := by
  constructor
  · exact C5_alg_kid_enforcement.1 toyCtx cpar
      (joinDot [b64encode (cserMap [("alg", Json.str "dir"),
          ("enc", Json.str "A128CBC-HS256")]), [], [], [],
        b64encode (cserMap [("alg", Json.str "dir"),
          ("enc", Json.str "A128CBC-HS256")])])
      (dirDecrypter none) []
      (JweHeader.fromMap [("alg", Json.str "dir"),
        ("enc", Json.str "A128CBC-HS256")]) (by decide)
  · exact C5_alg_kid_enforcement.2 toyCtx [Char.ofNat 33] [] [] [] []
      (JweHeader.fromMap [("alg", Json.str "dir"),
        ("enc", Json.str "A128CBC-HS256")]) (dirDecrypter none)
      (by decide) (by intro dk h; cases h) "x" "x" "x"
      (.msg .base64Invalid) (by decide)

/-- Witness for C4: discharging the capability-kind hypotheses for the
toy context, a concrete malformed input yields the invalid-jwe-format
kind. -/
theorem C4_witness :
    ∃ m, (JoseError.invalidJweFormat .fivePartsRequired) =
      .invalidJweFormat m := by
  refine C4_uniform_error_kind toyCtx cpar [] (dirDecrypter none)
    ?_ ?_ (.invalidJweFormat .fivePartsRequired) (by decide)
  · intro h ek e hc
    simp [dirDecrypter] at hc
  · intro n c hc key iv ct aad tg e hd
    have hceq : ∃ nm, c = toyCenc nm := by
      by_cases hn : ("A128CBC-HS256" : String) = n <;>
        simp [getContentEncryption, toyCtx, List.find?, hn] at hc
      exact ⟨n, hc.symm⟩
    obtain ⟨nm, rfl⟩ := hceq
    simp only [toyCenc] at hd
    split at hd
    · cases hd
    · obtain rfl : JoseError.invalidJweFormat .base64Invalid = e := by
        cases hd
        rfl
      exact ⟨.base64Invalid, rfl⟩

/-- Witness for C10: a protected and an unprotected header both carrying
the enc claim produce a duplicate-key failure. -/
theorem C10_witness :
    ∃ k2, serializeFlattenedJsonWithSelector toyCtx cserMap (fun _ => [])
      (fun _ => []) [] (some ⟨[("enc", Json.str "X")], []⟩)
      (some ⟨[("enc", Json.str "Y")], []⟩) none (fun _ => none) =
        .err (.invalidJweFormat (.duplicateKey k2)) := by
  exact (C10_flattened_duplicate_keys toyCtx cserMap (fun _ => [])
    (fun _ => []) [] (some ⟨[("enc", Json.str "X")], []⟩)
    (some ⟨[("enc", Json.str "Y")], []⟩) none (fun _ => none)).1
    ⟨"enc", Or.inl ⟨by decide, by decide⟩⟩

/-- The enc accessor answers ok-some exactly on a string-valued raw
claim. -/
theorem JweHeader.contentEncryption_ok_some {h : JweHeader} {v : String}
    (hc : h.contentEncryption = .ok (some v)) :
    mapGet h.claims "enc" = some (.str v) := by
  unfold JweHeader.contentEncryption at hc
  rcases hm : mapGet h.claims "enc" with _ | j <;> rw [hm] at hc
  · simp at hc
  · cases j <;> simp at hc
    simp [hc]

/-- Inversion of an ok answer of the zip accessor: the raw claim is
absent or holds exactly the answered string. -/
theorem JweHeader.compression_ok_inv {h : JweHeader} {o : Option String}
    (hc : h.compression = .ok o) :
    (o = none ∧ mapGet h.claims "zip" = none) ∨
      ∃ v, o = some v ∧ mapGet h.claims "zip" = some (.str v) := by
  unfold JweHeader.compression at hc
  rcases hm : mapGet h.claims "zip" with _ | j <;> rw [hm] at hc
  · left
    simp at hc
    exact ⟨hc.symm, rfl⟩
  · right
    cases j <;> simp at hc
    exact ⟨_, hc.symm, rfl⟩

/-- Stamping the alg claim answers it back. -/
theorem mapGet_setAlgorithm_self (h : JweHeader) (v : String) :
    mapGet (h.setAlgorithm v).claims "alg" = some (.str v) := by
  simp only [JweHeader.setAlgorithm]
  exact mapGet_mapInsert_self _ _ _

/-- Stamping the alg claim leaves every other claim unchanged. -/
theorem mapGet_setAlgorithm_ne (h : JweHeader) (v : String) {k : String}
    (hk : k ≠ "alg") :
    mapGet (h.setAlgorithm v).claims k = mapGet h.claims k := by
  simp only [JweHeader.setAlgorithm]
  exact mapGet_mapInsert_ne _ _ (Ne.symm hk)

/-- The kid default fill leaves every claim other than kid unchanged. -/
theorem mapGet_kidFill_ne (h : JweHeader) (E : JweEncrypter) {k : String}
    (hk : k ≠ "kid") :
    mapGet (kidFill h E).claims k = mapGet h.claims k := by
  unfold kidFill
  rcases hm : mapGet h.claims "kid" with _ | v
  · simp only [hm]
    rcases hk2 : E.keyId with _ | kid
    · rfl
    · simp only [JweHeader.setKeyId]
      exact mapGet_mapInsert_ne _ _ (Ne.symm hk)
  · simp only [hm]

/-- The encrypted-key segment never holds the separator. -/
theorem dot_not_mem_ekSegment (ekO : Option (List Nat)) :
    '.' ∉ ekSegment ekO := by
  rcases ekO with _ | b
  · simp [ekSegment]
  · exact dot_not_mem_b64encode b

/-- Decoding the encrypted-key segment recovers the wrapped key, or the
empty byte string when the encrypter produced none. -/
theorem b64decode_ekSegment (ekO : Option (List Nat))
    (hB : ∀ b, ekO = some b → ByteList b) :
    b64decode (ekSegment ekO) = some (ekO.getD []) := by
  rcases ekO with _ | b
  · simp [ekSegment, b64decode, Option.getD]
  · simp only [ekSegment, Option.getD]
    exact b64decode_b64encode b (hB b rfl)

/-- Inversion of a successful compact serialization with a fixed
encrypter: the run resolved the enc claim to a registered capability,
resolved the zip claim, obtained the content key from the encrypter,
compressed, encrypted with the serialized kid-filled header as AAD, and
joined the five segments. -/
theorem serializeCompact_ok_inv (ctx : JweContext) (ser : JMap → List Nat)
    (rand : Nat → List Nat) (payload : List Nat) (header : JweHeader)
    (E : JweEncrypter) (msg : List Char)
    (hok : serializeCompact ctx ser rand payload header E = .ok msg) :
    ∃ enc cenc zipO compression header1 key ekO content ct tag,
      header.contentEncryption = .ok (some enc) ∧
      getContentEncryption ctx enc = some cenc ∧
      header.compression = .ok zipO ∧
      resolveComp ctx zipO = .ok compression ∧
      E.encrypt cenc.keyLen header = .ok (header1, key, ekO) ∧
      compressStep compression payload = .ok content ∧
      cenc.encrypt key (rand cenc.ivLen) content
        (ser (kidFill header1 E).claims) = .ok (ct, tag) ∧
      msg = joinDot [b64encode (ser (kidFill header1 E).claims),
        ekSegment ekO, b64encode (rand cenc.ivLen), b64encode ct,
        b64encode tag] := by
  unfold serializeCompact serializeCompactWithSelector at hok
  rw [jweFunnel_ok_iff] at hok
  rcases hce : header.contentEncryption with pm | ie | encO <;>
    rw [hce] at hok
  · simp [Res.bind] at hok
  · simp [Res.bind] at hok
  · simp only [Res.bind] at hok
    rcases hrc : resolveCenc ctx encO with pm | ie | cenc <;>
      rw [hrc] at hok
    · simp [Res.bind] at hok
    · simp [Res.bind] at hok
    · simp only [Res.bind] at hok
      rcases hcz : header.compression with pm | ie | zipO <;>
        rw [hcz] at hok
      · simp [Res.bind] at hok
      · simp [Res.bind] at hok
      · simp only [Res.bind] at hok
        rcases hrz : resolveComp ctx zipO with pm | ie | compression <;>
          rw [hrz] at hok
        · simp [Res.bind] at hok
        · simp [Res.bind] at hok
        · simp only [Res.bind] at hok
          rcases hE : E.encrypt cenc.keyLen header with e | r <;>
            rw [hE] at hok
          · simp [Res.bind, liftJose] at hok
          · simp only [Res.bind, liftJose] at hok
            obtain ⟨header1, key, ekO⟩ := r
            simp only [] at hok
            rcases hcp : compressStep compression payload
                with pm | ie | content <;> rw [hcp] at hok
            · simp [Res.bind] at hok
            · simp [Res.bind] at hok
            · simp only [Res.bind] at hok
              rcases hae : cenc.encrypt key (rand cenc.ivLen) content
                  (ser (kidFill header1 E).claims) with e | ctag <;>
                rw [hae] at hok
              · simp [Res.bind, liftJose] at hok
              · simp only [Res.bind, liftJose] at hok
                obtain ⟨ct, tag⟩ := ctag
                simp only [Res.ok.injEq] at hok
                obtain ⟨enc, rfl, hreg⟩ := resolveCenc_ok_iff.mp hrc
                exact ⟨enc, cenc, zipO, compression, header1, key, ekO,
                  content, ct, tag, rfl, hreg, rfl, hrz, hE, hcp, hae,
                  hok.symm⟩

/-- CLAIM C1 (amended): under coherent collaborators — a parser inverting
the serializer on the final header claims, byte-valued randomness and
wrapped keys, an encrypter that stamps its alg claim, a decrypter of the
same algorithm whose configured key id passes the kid check and which
recovers the content key, an AEAD capability whose decrypt inverts its
encrypt, and a compression capability whose decompress inverts its
compress — deserializing a successfully serialized compact JWE returns
the original payload together with a header whose claims are the input
claims augmented with the encrypter's alg claim (and its kid claim when
default-filled) and whose typed-source cache is empty. -/
theorem C1_compact_roundtrip (ctx : JweContext) (ser : JMap → List Nat)
    (par : List Nat → Option JMap) (rand : Nat → List Nat)
    (payload : List Nat) (header : JweHeader) (E : JweEncrypter)
    (D : JweDecrypter) (msg : List Char)
    (hok : serializeCompact ctx ser rand payload header E = .ok msg)
    (hbytes : ByteList (ser (kidFill (header.setAlgorithm E.algName)
      E).claims))
    (hpar : par (ser (kidFill (header.setAlgorithm E.algName) E).claims) =
      some (kidFill (header.setAlgorithm E.algName) E).claims)
    (hrand : ∀ n, ByteList (rand n))
    (hpayload : ByteList payload)
    (hEhdr : ∀ n h h2 k ek, E.encrypt n h = .ok (h2, k, ek) →
      h2 = h.setAlgorithm E.algName ∧ ∀ b, ek = some b → ByteList b)
    (hDalg : D.algName = E.algName)
    (hkid : kidCheck D (kidFill (header.setAlgorithm E.algName) E).keyId =
      .ok ())
    (hD : ∀ n h h2 k ek, E.encrypt n h = .ok (h2, k, ek) →
      ∀ hh, D.decrypt hh (ek.getD []) = .ok k)
    (hcenc : ∀ nm c, getContentEncryption ctx nm = some c →
      ∀ k iv m aad ct tg, ByteList m → ByteList aad →
        c.encrypt k iv m aad = .ok (ct, tg) →
        c.decrypt k iv ct aad tg = .ok m ∧ ByteList ct ∧ ByteList tg)
    (hcomp : ∀ nm c, getCompression ctx nm = some c →
      ∀ p q, c.compress p = .ok q → c.decompress q = .ok p ∧ ByteList q) :
    deserializeCompact ctx par msg D =
      .ok (payload,
        ⟨(kidFill (header.setAlgorithm E.algName) E).claims, []⟩) := by
  obtain ⟨enc, cenc, zipO, compression, header1, key, ekO, content, ct, tag,
    hce, hreg, hcz, hrz, hE, hcp, hae, hmsg⟩ :=
    serializeCompact_ok_inv ctx ser rand payload header E msg hok
  obtain ⟨hh1, hekB⟩ := hEhdr _ _ _ _ _ hE
  subst hh1
  subst hmsg
  set K := (kidFill (header.setAlgorithm E.algName) E).claims with hK
  have hH2enc : mapGet K "enc" = some (.str enc) := by
    rw [hK, mapGet_kidFill_ne _ _ (by decide),
      mapGet_setAlgorithm_ne _ _ (by decide)]
    exact JweHeader.contentEncryption_ok_some hce
  have hH2alg : mapGet K "alg" = some (.str E.algName) := by
    rw [hK, mapGet_kidFill_ne _ _ (by decide)]
    exact mapGet_setAlgorithm_self header E.algName
  have hH2zip : mapGet K "zip" = mapGet header.claims "zip" := by
    rw [hK, mapGet_kidFill_ne _ _ (by decide),
      mapGet_setAlgorithm_ne _ _ (by decide)]
  have hHce : (JweHeader.fromMap K).contentEncryption = .ok (some enc) := by
    have hclaims : (JweHeader.fromMap K).claims = K := rfl
    unfold JweHeader.contentEncryption
    rw [hclaims, hH2enc]
  have hHcz : (JweHeader.fromMap K).compression = .ok zipO := by
    have hclaims : (JweHeader.fromMap K).claims = K := rfl
    unfold JweHeader.compression
    rw [hclaims, hH2zip]
    rcases JweHeader.compression_ok_inv hcz with ⟨rfl, hno⟩ | ⟨v, rfl, hyes⟩
    · rw [hno]
    · rw [hyes]
  have halgchk : algCheck D (JweHeader.fromMap K).algorithm = .ok () := by
    have halga : (JweHeader.fromMap K).algorithm = some E.algName :=
      JweHeader.algorithm_eq_some_iff.mpr hH2alg
    rw [halga]
    simp [algCheck, hDalg]
  have hkidchk : kidCheck D (JweHeader.fromMap K).keyId = .ok () := hkid
  have hstep : ByteList content ∧
      decompressStep compression content = .ok payload := by
    rcases resolveComp_ok_iff.mp hrz with ⟨-, rfl⟩ | ⟨zip, comp, -, hgc, rfl⟩
    · rw [compressStep_none] at hcp
      have hpc : payload = content := by
        simpa using hcp
      subst hpc
      exact ⟨hpayload, decompressStep_none _⟩
    · unfold compressStep at hcp
      rw [liftIo_ok_iff] at hcp
      obtain ⟨hdc, hqB⟩ := hcomp zip comp hgc payload content hcp
      refine ⟨hqB, ?_⟩
      show liftIo (comp.decompress content) = Res.ok payload
      rw [hdc]
      rfl
  obtain ⟨hcontentB, hdecomp⟩ := hstep
  obtain ⟨hdec, hctB, htgB⟩ :=
    hcenc enc cenc hreg key (rand cenc.ivLen) content (ser K) ct tag
      hcontentB hbytes hae
  unfold deserializeCompact deserializeCompactWithSelector
  rw [jweFunnel_ok_iff]
  rw [splitDot_joinDot5 _ _ _ _ _ (dot_not_mem_b64encode _)
    (dot_not_mem_ekSegment _) (dot_not_mem_b64encode _)
    (dot_not_mem_b64encode _) (dot_not_mem_b64encode _)]
  simp only [Res.bind_ok_iff, liftOpt_ok_iff]
  refine ⟨ser K, b64decode_b64encode _ hbytes, K, hpar, ?_⟩
  unfold deserializeCore
  simp only [Res.bind_ok_iff, liftJose_ok_iff]
  refine ⟨some D, rfl, ?_⟩
  simp only [Res.bind_ok_iff]
  refine ⟨some enc, hHce, cenc, resolveCenc_ok_iff.mpr ⟨enc, rfl, hreg⟩,
    zipO, hHcz, compression, hrz, (), halgchk, (), hkidchk, ?_⟩
  unfold deserializeCoreTail
  simp only [Res.bind_ok_iff, liftOpt_ok_iff, liftJose_ok_iff]
  exact ⟨ekO.getD [], b64decode_ekSegment ekO hekB, key,
    hD _ _ _ _ _ hE _, rand cenc.ivLen, b64decode_b64encode _ (hrand _),
    ct, b64decode_b64encode _ hctB, tag, b64decode_b64encode _ htgB,
    content, hdec, payload, hdecomp, rfl⟩

set_option maxRecDepth 10000 in
/-- Counterexample to C1 as stated: a header whose crit claim was set
through the typed setter round-trips to the original payload, but the
returned header is NOT equal to the input header augmented with the
encrypter's alg claim — the augmented input keeps its typed-source
cache entry while the deserialized header's cache is empty (the derived
header equality compares both fields). -/
theorem C1_counterexample :
    serializeCompact toyCtx cserMap (fun _ => []) [7] c1Header
      (dirEncrypter none) = .ok c1Msg ∧
    deserializeCompact toyCtx cpar c1Msg (dirDecrypter none) =
      .ok ([7], ⟨(c1Header.setAlgorithm "dir").claims, []⟩) ∧
    (⟨(c1Header.setAlgorithm "dir").claims, []⟩ : JweHeader) ≠
      c1Header.setAlgorithm "dir" := by
  exact ⟨by decide, by decide, by decide⟩

set_option maxRecDepth 10000 in
/-- Witness for C1 (amended): a concrete round trip under the toy
context, with a configured key id on the encrypter that gets
default-filled and checked by the matching decrypter. -/
theorem C1_witness :
    deserializeCompact toyCtx cpar c1wMsg (dirDecrypter (some "k1")) =
      .ok ([5, 6],
        ⟨(kidFill ((JweHeader.new.setContentEncryption
            "A128CBC-HS256").setAlgorithm
            (dirEncrypter (some "k1")).algName)
          (dirEncrypter (some "k1"))).claims, []⟩) := by
  refine C1_compact_roundtrip toyCtx cserMap cpar (fun _ => []) [5, 6]
    (JweHeader.new.setContentEncryption "A128CBC-HS256")
    (dirEncrypter (some "k1")) (dirDecrypter (some "k1")) c1wMsg
    ?_ ?_ ?_ ?_ ?_ ?_ ?_ ?_ ?_ ?_ ?_
  · decide
  · decide
  · decide
  · intro n b hb
    exact absurd hb (List.not_mem_nil b)
  · decide
  · intro n h h2 k ek hc
    simp only [dirEncrypter] at hc
    simp at hc
    obtain ⟨h1, hk2, h3⟩ := hc
    subst h3
    refine ⟨h1.symm, ?_⟩
    intro b hb
    cases hb
  · rfl
  · decide
  · intro n h h2 k ek hc hh
    simp only [dirEncrypter] at hc
    simp at hc
    obtain ⟨-, hk2, -⟩ := hc
    subst hk2
    rfl
  · intro nm c hc k iv m aad ct tg hm haad he
    have hceq : ∃ x, c = toyCenc x := by
      by_cases hn : ("A128CBC-HS256" : String) = nm <;>
        simp [getContentEncryption, toyCtx, List.find?, hn] at hc
      exact ⟨nm, hc.symm⟩
    obtain ⟨x, rfl⟩ := hceq
    simp only [toyCenc] at he
    simp at he
    obtain ⟨hm2, haad2⟩ := he
    subst hm2
    subst haad2
    refine ⟨?_, hm, haad⟩
    simp [toyCenc]
  · intro nm c hc
    simp [getCompression, toyCtx] at hc

/-- Inversion of a successful run of the decrypting tail: the returned
header is the one handed in, every segment decoded, and the AEAD decrypt
was run over the handed-in header bytes as AAD. -/
theorem deserializeCoreTail_ok_inv (ek64 iv64 ct64 tag64 : List Char)
    (hb : List Nat) (header : JweHeader) (decrypter : JweDecrypter)
    (cenc : JweCenc) (compression : Option JweComp) (c : List Nat)
    (h : JweHeader)
    (hok : deserializeCoreTail ek64 iv64 ct64 tag64 hb header decrypter
      cenc compression = .ok (c, h)) :
    h = header ∧ ∃ ek key iv ciphertext tag content,
      b64decode ek64 = some ek ∧ decrypter.decrypt header ek = .ok key ∧
      b64decode iv64 = some iv ∧ b64decode ct64 = some ciphertext ∧
      b64decode tag64 = some tag ∧
      cenc.decrypt key iv ciphertext hb tag = .ok content ∧
      decompressStep compression content = .ok c := by
  unfold deserializeCoreTail at hok
  rcases hek : b64decode ek64 with _ | ek <;> rw [hek] at hok
  · simp [Res.bind, liftOpt] at hok
  · simp only [Res.bind, liftOpt] at hok
    rcases hdec : decrypter.decrypt header ek with e | key <;>
      rw [hdec] at hok
    · simp [Res.bind, liftJose] at hok
    · simp only [Res.bind, liftJose] at hok
      rcases hiv : b64decode iv64 with _ | iv <;> rw [hiv] at hok
      · simp [Res.bind, liftOpt] at hok
      · simp only [Res.bind, liftOpt] at hok
        rcases hctd : b64decode ct64 with _ | ciphertext <;>
          rw [hctd] at hok
        · simp [Res.bind, liftOpt] at hok
        · simp only [Res.bind, liftOpt] at hok
          rcases htg : b64decode tag64 with _ | tag <;> rw [htg] at hok
          · simp [Res.bind, liftOpt] at hok
          · simp only [Res.bind, liftOpt] at hok
            rcases hcd : cenc.decrypt key iv ciphertext hb tag
                with e | content <;> rw [hcd] at hok
            · simp [Res.bind, liftJose] at hok
            · simp only [Res.bind, liftJose] at hok
              rcases hds : decompressStep compression content
                  with pm | ie | c2 <;> rw [hds] at hok
              · simp [Res.bind] at hok
              · simp [Res.bind] at hok
              · simp only [Res.bind, Res.ok.injEq, Prod.mk.injEq] at hok
                obtain ⟨rfl, rfl⟩ := hok
                exact ⟨rfl, ek, key, iv, ciphertext, tag, content,
                  rfl, hdec, rfl, rfl, rfl, hcd, hds⟩

/-- Inversion of a successful run of the deserialization core down to the
tail call: some decrypter was selected, a registered content encryption
was resolved, and the tail ran with the same header bytes. -/
theorem deserializeCore_ok_cenc (ctx : JweContext)
    (ek64 iv64 ct64 tag64 : List Char) (hb : List Nat) (header : JweHeader)
    (selector : JweHeader → Except JoseError (Option JweDecrypter))
    (c : List Nat) (h : JweHeader)
    (hok : deserializeCore ctx ek64 iv64 ct64 tag64 hb header selector =
      .ok (c, h)) :
    ∃ d cenc compression, (∃ n, getContentEncryption ctx n = some cenc) ∧
      deserializeCoreTail ek64 iv64 ct64 tag64 hb header d cenc
        compression = .ok (c, h) := by
  unfold deserializeCore at hok
  rcases hsel : selector header with e | dOpt <;> rw [hsel] at hok
  · simp [Res.bind, liftJose] at hok
  · rcases dOpt with _ | d
    · simp [Res.bind, liftJose, bailMsg] at hok
    · simp only [Res.bind, liftJose] at hok
      rcases hce : header.contentEncryption with pm | ie | encO <;>
        rw [hce] at hok
      · simp [Res.bind] at hok
      · simp [Res.bind] at hok
      · simp only [Res.bind] at hok
        rcases hrc : resolveCenc ctx encO with pm | ie | cenc <;>
          rw [hrc] at hok
        · simp [Res.bind] at hok
        · simp [Res.bind] at hok
        · simp only [Res.bind] at hok
          rcases hcz : header.compression with pm | ie | zipO <;>
            rw [hcz] at hok
          · simp [Res.bind] at hok
          · simp [Res.bind] at hok
          · simp only [Res.bind] at hok
            rcases hrz : resolveComp ctx zipO with pm | ie | compression <;>
              rw [hrz] at hok
            · simp [Res.bind] at hok
            · simp [Res.bind] at hok
            · simp only [Res.bind] at hok
              rcases hac : algCheck d header.algorithm with pm | ie | u <;>
                rw [hac] at hok
              · simp [Res.bind] at hok
              · simp [Res.bind] at hok
              · simp only [Res.bind] at hok
                rcases hkc : kidCheck d header.keyId with pm | ie | u2 <;>
                  rw [hkc] at hok
                · simp [Res.bind] at hok
                · simp [Res.bind] at hok
                · simp only [Res.bind] at hok
                  obtain ⟨enc, -, hreg⟩ := resolveCenc_ok_iff.mp hrc
                  exact ⟨d, cenc, compression, ⟨enc, hreg⟩, hok⟩

/-- CLAIM C6: in compact encryption one byte sequence — the JSON
serialization of the final (alg-stamped, kid-filled) header — is both
base64url-encoded as the first wire segment and passed unchanged as the
AAD to the content-encryption encrypt; in compact decryption the AAD
passed to decrypt is exactly the base64url-decoded bytes of the
transmitted first segment, while the header handed back is merely the
parse of those bytes (never a re-serialization). -/
theorem C6_aad_is_wire_header :
    (∀ (ctx : JweContext) (ser : JMap → List Nat) (rand : Nat → List Nat)
      (payload : List Nat) (header : JweHeader) (E : JweEncrypter)
      (msg : List Char),
      serializeCompact ctx ser rand payload header E = .ok msg →
      ∃ hb header1 cenc key ekO content ct tag,
        hb = ser (kidFill header1 E).claims ∧
        (∃ n, getContentEncryption ctx n = some cenc) ∧
        cenc.encrypt key (rand cenc.ivLen) content hb = .ok (ct, tag) ∧
        splitDot msg = [b64encode hb, ekSegment ekO,
          b64encode (rand cenc.ivLen), b64encode ct, b64encode tag]) ∧
    (∀ (ctx : JweContext) (par : List Nat → Option JMap)
      (input : List Char) (D : JweDecrypter) (c : List Nat)
      (h : JweHeader),
      deserializeCompact ctx par input D = .ok (c, h) →
      ∃ h64 ek64 iv64 ct64 tag64 hb hm,
        splitDot input = [h64, ek64, iv64, ct64, tag64] ∧
        b64decode h64 = some hb ∧
        par hb = some hm ∧
        h = JweHeader.fromMap hm ∧
        ∃ cenc key iv ciphertext tag content compression,
          (∃ n, getContentEncryption ctx n = some cenc) ∧
          cenc.decrypt key iv ciphertext hb tag = .ok content ∧
          decompressStep compression content = .ok c) := by
  constructor
  · intro ctx ser rand payload header E msg hok
    obtain ⟨enc, cenc, zipO, compression, header1, key, ekO, content, ct,
      tag, hce, hreg, hcz, hrz, hE, hcp, hae, hmsg⟩ :=
      serializeCompact_ok_inv ctx ser rand payload header E msg hok
    subst hmsg
    exact ⟨ser (kidFill header1 E).claims, header1, cenc, key, ekO, content,
      ct, tag, rfl, ⟨enc, hreg⟩, hae,
      splitDot_joinDot5 _ _ _ _ _ (dot_not_mem_b64encode _)
        (dot_not_mem_ekSegment _) (dot_not_mem_b64encode _)
        (dot_not_mem_b64encode _) (dot_not_mem_b64encode _)⟩
  · intro ctx par input D c h hok
    unfold deserializeCompact deserializeCompactWithSelector at hok
    rw [jweFunnel_ok_iff] at hok
    split at hok
    case _ h64 ek64 iv64 ct64 tag64 heq =>
      simp only [Res.bind_ok_iff, liftOpt_ok_iff] at hok
      obtain ⟨hb, hdecode, hm, hparse, hcore⟩ := hok
      obtain ⟨d, cenc, compression, hcr, htail⟩ :=
        deserializeCore_ok_cenc _ _ _ _ _ _ _ _ _ _ hcore
      obtain ⟨rfl, ek, key, iv, ciphertext, tag, content, -, -, -, -, -,
        hcd, hds⟩ := deserializeCoreTail_ok_inv _ _ _ _ _ _ _ _ _ _ _ htail
      exact ⟨h64, ek64, iv64, ct64, tag64, hb, hm, heq, hdecode, hparse,
        rfl, cenc, key, iv, ciphertext, tag, content, compression, hcr,
        hcd, hds⟩
    case _ => simp [bailMsg] at hok

set_option maxRecDepth 10000 in
/-- Witness for C6: a concrete serialization exhibiting the shared
header-bytes/AAD sequence, and a concrete deserialization whose wire
header bytes carry a redundant pad byte the serializer never emits —
the AEAD decrypt still ran over exactly those transmitted bytes. -/
theorem C6_witness :
    (∃ hb header1 cenc key ekO content ct tag,
      hb = cserMap (kidFill header1 (dirEncrypter none)).claims ∧
      (∃ n, getContentEncryption toyCtx n = some cenc) ∧
      cenc.encrypt key ([] : List Nat) content hb = .ok (ct, tag) ∧
      splitDot c6sMsg = [b64encode hb, ekSegment ekO,
        b64encode ([] : List Nat), b64encode ct, b64encode tag]) ∧
    (∃ h64 ek64 iv64 ct64 tag64 hb hm,
      splitDot c6dMsg = [h64, ek64, iv64, ct64, tag64] ∧
      b64decode h64 = some hb ∧
      cpar hb = some hm ∧
      JweHeader.fromMap c6dMap = JweHeader.fromMap hm ∧
      ∃ cenc key iv ciphertext tag content compression,
        (∃ n, getContentEncryption recCtx n = some cenc) ∧
        cenc.decrypt key iv ciphertext hb tag = .ok content ∧
        decompressStep compression content = .ok c6dBytes) := by
  constructor
  · exact C6_aad_is_wire_header.1 toyCtx cserMap (fun _ => []) [9]
      (JweHeader.new.setContentEncryption "A128CBC-HS256")
      (dirEncrypter none) c6sMsg (by decide)
  · exact C6_aad_is_wire_header.2 recCtx cpar c6dMsg (dirDecrypter none)
      c6dBytes (JweHeader.fromMap c6dMap) (by decide)

/-- Removal empties a key entirely. -/
theorem mapGet_mapRemove_self (m : JMap) (k : String) :
    mapGet (mapRemove m k) k = none := by
  induction m with
  | nil => simp [mapRemove, mapGet]
  | cons p rest ih =>
    obtain ⟨k2, v2⟩ := p
    by_cases h : k2 = k <;> simp [mapRemove, mapGet, h, ih]

/-- Removing one key leaves every other key unchanged. -/
theorem mapGet_mapRemove_ne (m : JMap) {k k2 : String} (h : k ≠ k2) :
    mapGet (mapRemove m k) k2 = mapGet m k2 := by
  induction m with
  | nil => simp [mapRemove]
  | cons p rest ih =>
    obtain ⟨k3, v3⟩ := p
    by_cases h3 : k3 = k
    · subst h3
      simp [mapRemove, mapGet, h, ih]
    · by_cases h4 : k3 = k2 <;>
        simp [mapRemove, mapGet, h3, h4, Ne.symm h, ih]

/-- Source-cache removal empties a key entirely. -/
theorem sGet_sRemove_self (m : SMap) (k : String) :
    sGet (sRemove m k) k = none := by
  induction m with
  | nil => simp [sRemove, sGet]
  | cons p rest ih =>
    obtain ⟨k2, v2⟩ := p
    by_cases h : k2 = k <;> simp [sRemove, sGet, h, ih]

/-- Source-cache removal leaves every other key unchanged. -/
theorem sGet_sRemove_ne (m : SMap) {k k2 : String} (h : k ≠ k2) :
    sGet (sRemove m k) k2 = sGet m k2 := by
  induction m with
  | nil => simp [sRemove]
  | cons p rest ih =>
    obtain ⟨k3, v3⟩ := p
    by_cases h3 : k3 = k
    · subst h3
      simp [sRemove, sGet, h, ih]
    · by_cases h4 : k3 = k2 <;>
        simp [sRemove, sGet, h3, h4, Ne.symm h, ih]

/-- String-level base64url decoding inverts encoding on byte strings. -/
theorem b64decodeStr_b64encodeStr (v : List Nat) (h : ByteList v) :
    b64decodeStr (b64encodeStr v) = some v := by
  unfold b64decodeStr b64encodeStr
  exact b64decode_b64encode v h

/-- An all-strings answer pins the array to the mapped strings. -/
theorem allStrings_inv : ∀ (vs : List Json) (ss : List String),
    allStrings vs = some ss → vs = ss.map Json.str := by
  intro vs
  induction vs with
  | nil =>
    intro ss h
    simp [allStrings] at h
    subst h
    rfl
  | cons v rest ih =>
    intro ss h
    cases v <;> simp [allStrings] at h
    rcases hr : allStrings rest with _ | ss2 <;> rw [hr] at h
    · cases h
    · simp at h
      subst h
      simp [ih ss2 hr]

/-- Encoding a chain of byte blobs decodes back to the blobs. -/
theorem allB64Strings_encode : ∀ (vals : List (List Nat)),
    (∀ v ∈ vals, ByteList v) →
    allB64Strings (vals.map fun v => Json.str (b64encodeStr v)) =
      some vals := by
  intro vals
  induction vals with
  | nil => intro _; rfl
  | cons v rest ih =>
    intro hB
    simp only [List.map]
    unfold allB64Strings
    rw [b64decodeStr_b64encodeStr v (hB v (by simp)),
      ih (fun u hu => hB u (by simp [hu]))]

/-- Dually inserting a cached reserved claim with its decoded source
value preserves the invariant. -/
theorem Consistent_insert_cached {h : JweHeader} (hcon : h.Consistent)
    (k0 : String) (v0 : Json) (sv0 : SourceValue)
    (hd : SvDecodes k0 sv0 v0) :
    JweHeader.Consistent
      ⟨mapInsert h.claims k0 v0, sInsert h.sources k0 sv0⟩ := by
  intro k hk
  by_cases hkk : k0 = k
  · subst hkk
    constructor
    · intro v hv
      rw [mapGet_mapInsert_self] at hv
      injection hv with hv2
      subst hv2
      exact ⟨sv0, sGet_sInsert_self _ _ _, hd⟩
    · intro sv hsv
      rw [sGet_sInsert_self] at hsv
      injection hsv with hsv2
      subst hsv2
      exact ⟨v0, mapGet_mapInsert_self _ _ _, hd⟩
  · refine ⟨fun v hv => ?_, fun sv hsv => ?_⟩
    · rw [mapGet_mapInsert_ne _ _ hkk] at hv
      obtain ⟨sv, hsv, hdec⟩ := (hcon k hk).1 v hv
      exact ⟨sv, by rw [sGet_sInsert_ne _ _ hkk]; exact hsv, hdec⟩
    · rw [sGet_sInsert_ne _ _ hkk] at hsv
      obtain ⟨v, hv, hdec⟩ := (hcon k hk).2 sv hsv
      exact ⟨v, by rw [mapGet_mapInsert_ne _ _ hkk]; exact hv, hdec⟩

/-- Setting a claim off the cached set touches no source entry and
preserves the invariant. -/
theorem Consistent_set_uncached {h : JweHeader} (hcon : h.Consistent)
    (k0 : String) (v0 : Json) (hk0 : k0 ∉ cachedKeys) :
    JweHeader.Consistent ⟨mapInsert h.claims k0 v0, h.sources⟩ := by
  intro k hk
  have hne : k0 ≠ k := fun e => hk0 (e ▸ hk)
  refine ⟨fun v hv => ?_, fun sv hsv => ?_⟩
  · rw [mapGet_mapInsert_ne _ _ hne] at hv
    exact (hcon k hk).1 v hv
  · obtain ⟨v, hv, hdec⟩ := (hcon k hk).2 sv hsv
    exact ⟨v, by rw [mapGet_mapInsert_ne _ _ hne]; exact hv, hdec⟩

/-- Dually removing a cached reserved claim preserves the invariant. -/
theorem Consistent_remove_cached {h : JweHeader} (hcon : h.Consistent)
    (k0 : String) :
    JweHeader.Consistent
      ⟨mapRemove h.claims k0, sRemove h.sources k0⟩ := by
  intro k hk
  by_cases hkk : k0 = k
  · subst hkk
    refine ⟨fun v hv => ?_, fun sv hsv => ?_⟩
    · rw [mapGet_mapRemove_self] at hv
      cases hv
    · rw [sGet_sRemove_self] at hsv
      cases hsv
  · refine ⟨fun v hv => ?_, fun sv hsv => ?_⟩
    · rw [mapGet_mapRemove_ne _ hkk] at hv
      obtain ⟨sv, hsv, hdec⟩ := (hcon k hk).1 v hv
      exact ⟨sv, by rw [sGet_sRemove_ne _ hkk]; exact hsv, hdec⟩
    · rw [sGet_sRemove_ne _ hkk] at hsv
      obtain ⟨v, hv, hdec⟩ := (hcon k hk).2 sv hsv
      exact ⟨v, by rw [mapGet_mapRemove_ne _ hkk]; exact hv, hdec⟩

/-- Removing a claim off the cached set preserves the invariant. -/
theorem Consistent_remove_uncached {h : JweHeader} (hcon : h.Consistent)
    (k0 : String) (hk0 : k0 ∉ cachedKeys) :
    JweHeader.Consistent ⟨mapRemove h.claims k0, h.sources⟩ := by
  intro k hk
  have hne : k0 ≠ k := fun e => hk0 (e ▸ hk)
  refine ⟨fun v hv => ?_, fun sv hsv => ?_⟩
  · rw [mapGet_mapRemove_ne _ hne] at hv
    exact (hcon k hk).1 v hv
  · obtain ⟨v, hv, hdec⟩ := (hcon k hk).2 sv hsv
    exact ⟨v, by rw [mapGet_mapRemove_ne _ hne]; exact hv, hdec⟩

/-- The fresh header satisfies the invariant (both stores empty). -/
theorem Consistent_new : JweHeader.Consistent JweHeader.new := by
  intro k hk
  refine ⟨fun v hv => ?_, fun sv hsv => ?_⟩
  · simp [JweHeader.new, mapGet] at hv
  · simp [JweHeader.new, sGet] at hsv

/-- A decoded key retains exactly the map it was decoded from. -/
theorem Jwk.fromMap_ok {m : JMap} {j : Jwk} (h : Jwk.fromMap m = .ok j) :
    j.map = m := by
  unfold Jwk.fromMap at h
  rcases hk : mapGet m "kty" with _ | v <;> rw [hk] at h
  · cases h
  · cases v <;> simp at h
    subst h
    rfl

/-- A successful set_claim call preserves the dual-storage invariant:
every arm writes the raw value and the typed cache together (or removes
both), and validation failures change nothing. -/
theorem Consistent_setClaim {h h2 : JweHeader} {k : String}
    {vO : Option Json} (hcon : h.Consistent)
    (hset : h.setClaim k vO = .ok h2) : h2.Consistent := by
  unfold JweHeader.setClaim at hset
  split at hset
  · rename_i hcond
    have hk0 : k ∉ cachedKeys := by
      rcases hcond with rfl | rfl | rfl | rfl | rfl | rfl | rfl | rfl <;>
        decide
    rcases vO with _ | v
    · injection hset with hset2
      subst hset2
      exact Consistent_remove_uncached hcon k hk0
    · cases v with
      | str s =>
        injection hset with hset2
        subst hset2
        exact Consistent_set_uncached hcon k _ hk0
      | null => injection hset
      | bool b => injection hset
      | num n => injection hset
      | arr xs => injection hset
      | obj m => injection hset
  · split at hset
    · rename_i hcond
      subst hcond
      rcases vO with _ | v
      · injection hset with hset2
        subst hset2
        exact Consistent_remove_cached hcon "jwk"
      · cases v with
        | obj m =>
          simp only [] at hset
          rcases hjf : Jwk.fromMap m with e | j <;> rw [hjf] at hset
          · injection hset
          · injection hset with hset2
            subst hset2
            exact Consistent_insert_cached hcon "jwk" (.obj m) (.jwk j)
              (Jwk.fromMap_ok hjf).symm
        | null => injection hset
        | bool b => injection hset
        | num n => injection hset
        | str s => injection hset
        | arr xs => injection hset
    · split at hset
      · rename_i hcond
        rcases vO with _ | v
        · injection hset with hset2
          subst hset2
          exact Consistent_remove_cached hcon k
        · cases v with
          | str s =>
            simp only [] at hset
            rcases hbd : b64decodeStr s with _ | bs <;> rw [hbd] at hset
            · injection hset
            · injection hset with hset2
              subst hset2
              refine Consistent_insert_cached hcon k (.str s) (.bytes bs) ?_
              rcases hcond with rfl | rfl
              · exact hbd
              · exact hbd
          | null => injection hset
          | bool b => injection hset
          | num n => injection hset
          | arr xs => injection hset
          | obj m => injection hset
      · split at hset
        · rename_i hcond
          subst hcond
          rcases vO with _ | v
          · injection hset with hset2
            subst hset2
            exact Consistent_remove_cached hcon "x5c"
          · cases v with
            | arr vs =>
              simp only [] at hset
              rcases hab : allB64Strings vs with _ | bss <;> rw [hab] at hset
              · injection hset
              · injection hset with hset2
                subst hset2
                exact Consistent_insert_cached hcon "x5c" (.arr vs)
                  (.bytesArray bss) hab
            | null => injection hset
            | bool b => injection hset
            | num n => injection hset
            | str s => injection hset
            | obj m => injection hset
        · split at hset
          · rename_i hcond
            subst hcond
            rcases vO with _ | v
            · injection hset with hset2
              subst hset2
              exact Consistent_remove_cached hcon "crit"
            · cases v with
              | arr vs =>
                simp only [] at hset
                rcases has : allStrings vs with _ | ss <;> rw [has] at hset
                · injection hset
                · injection hset with hset2
                  subst hset2
                  exact Consistent_insert_cached hcon "crit" (.arr vs)
                    (.stringArray ss) (allStrings_inv vs ss has)
              | null => injection hset
              | bool b => injection hset
              | num n => injection hset
              | str s => injection hset
              | obj m => injection hset
          · rename_i hne1 hne2 hne3 hne4 hne5
            have hk0 : k ∉ cachedKeys := by
              intro hmem
              simp [cachedKeys] at hmem
              rcases hmem with rfl | rfl | rfl | rfl | rfl
              · exact hne2 rfl
              · exact hne4 rfl
              · exact hne3 (Or.inl rfl)
              · exact hne3 (Or.inr rfl)
              · exact hne5 rfl
            rcases vO with _ | v
            · injection hset with hset2
              subst hset2
              exact Consistent_remove_uncached hcon k hk0
            · injection hset with hset2
              subst hset2
              exact Consistent_set_uncached hcon k v hk0

/-- Counterexample to C3 as stated: a header parsed from wire bytes via
from_map carries the raw crit claim while its typed accessor answers
None — from_map leaves the typed-source cache empty, so headers "however
produced" do not satisfy the claimed consistency. -/
theorem C3_counterexample :
    mapGet (JweHeader.fromMap [("crit", Json.arr [Json.str "x"])]).claims
      "crit" = some (Json.arr [Json.str "x"]) ∧
    (JweHeader.fromMap [("crit", Json.arr [Json.str "x"])]).critical =
      .ok none :=
  ⟨by decide, by decide⟩

/-- CLAIM C3 (amended): the dual-storage invariant holds for
JweHeader::new, is preserved by every typed setter (byte-valued setters
under the u8 range condition the Rust Vec of u8 guarantees) and by every
successful set_claim call, and under the invariant every cached typed
accessor answers exactly the decoded raw claim — a decoded value when
the raw claim is present and None when it is absent. Headers parsed from
wire bytes via from_map are excluded: from_map leaves the cache empty. -/
theorem C3_dual_cache_invariant :
    JweHeader.Consistent JweHeader.new ∧
    (∀ (h : JweHeader) (v : String), h.Consistent →
      (h.setAlgorithm v).Consistent ∧ (h.setContentEncryption v).Consistent ∧
      (h.setCompression v).Consistent ∧ (h.setJwkSetUrl v).Consistent ∧
      (h.setX509Url v).Consistent ∧ (h.setKeyId v).Consistent ∧
      (h.setTokenType v).Consistent ∧ (h.setContentType v).Consistent) ∧
    (∀ (h : JweHeader) (j : Jwk), h.Consistent →
      (h.setJwk j).Consistent) ∧
    (∀ (h : JweHeader) (vals : List (List Nat)),
      (∀ v ∈ vals, ByteList v) → h.Consistent →
      (h.setX509CertificateChain vals).Consistent) ∧
    (∀ (h : JweHeader) (v : List Nat), ByteList v → h.Consistent →
      (h.setX509Sha1 v).Consistent ∧ (h.setX509Sha256 v).Consistent) ∧
    (∀ (h : JweHeader) (vals : List String), h.Consistent →
      (h.setCritical vals).Consistent) ∧
    (∀ (h h2 : JweHeader) (k : String) (vO : Option Json), h.Consistent →
      h.setClaim k vO = .ok h2 → h2.Consistent) ∧
    (∀ h : JweHeader, h.Consistent →
      (∀ v, mapGet h.claims "crit" = some v →
        ∃ ss, h.critical = .ok (some ss) ∧ v = .arr (ss.map .str)) ∧
      (mapGet h.claims "crit" = none → h.critical = .ok none) ∧
      (∀ v, mapGet h.claims "jwk" = some v →
        ∃ j, h.jwkClaim = .ok (some j) ∧ v = .obj j.map) ∧
      (mapGet h.claims "jwk" = none → h.jwkClaim = .ok none) ∧
      (∀ v, mapGet h.claims "x5c" = some v →
        ∃ bss vs, h.x509CertificateChain = .ok (some bss) ∧ v = .arr vs ∧
          allB64Strings vs = some bss) ∧
      (mapGet h.claims "x5c" = none → h.x509CertificateChain = .ok none) ∧
      (∀ v, mapGet h.claims "x5t" = some v →
        ∃ bs s, h.x509Sha1 = .ok (some bs) ∧ v = .str s ∧
          b64decodeStr s = some bs) ∧
      (mapGet h.claims "x5t" = none → h.x509Sha1 = .ok none) ∧
      (∀ v, mapGet h.claims "x5t#S256" = some v →
        ∃ bs s, h.x509Sha256 = .ok (some bs) ∧ v = .str s ∧
          b64decodeStr s = some bs) ∧
      (mapGet h.claims "x5t#S256" = none → h.x509Sha256 = .ok none)) := by
  refine ⟨Consistent_new,
    fun h v hcon => ⟨Consistent_set_uncached hcon "alg" _ (by decide),
      Consistent_set_uncached hcon "enc" _ (by decide),
      Consistent_set_uncached hcon "zip" _ (by decide),
      Consistent_set_uncached hcon "jku" _ (by decide),
      Consistent_set_uncached hcon "x5u" _ (by decide),
      Consistent_set_uncached hcon "kid" _ (by decide),
      Consistent_set_uncached hcon "typ" _ (by decide),
      Consistent_set_uncached hcon "cty" _ (by decide)⟩,
    fun h j hcon =>
      Consistent_insert_cached hcon "jwk" (.obj j.map) (.jwk j) rfl,
    fun h vals hB hcon =>
      Consistent_insert_cached hcon "x5c"
        (.arr (vals.map fun v => .str (b64encodeStr v))) (.bytesArray vals)
        (allB64Strings_encode vals hB),
    fun h v hB hcon =>
      ⟨Consistent_insert_cached hcon "x5t" (.str (b64encodeStr v))
        (.bytes v) (b64decodeStr_b64encodeStr v hB),
      Consistent_insert_cached hcon "x5t#S256" (.str (b64encodeStr v))
        (.bytes v) (b64decodeStr_b64encodeStr v hB)⟩,
    fun h vals hcon =>
      Consistent_insert_cached hcon "crit" (.arr (vals.map .str))
        (.stringArray vals) rfl,
    fun h h2 k vO hcon hset => Consistent_setClaim hcon hset,
    fun h hcon => ?_⟩
  refine ⟨?_, ?_, ?_, ?_, ?_, ?_, ?_, ?_, ?_, ?_⟩
  · intro v hv
    obtain ⟨sv, hsv, hdec⟩ := (hcon "crit" (by decide)).1 v hv
    rcases sv with bs | bss | ss | j | t <;>
      rcases v with _ | b | n | s | vs | o <;> simp [SvDecodes] at hdec
    refine ⟨ss, ?_, ?_⟩
    · unfold JweHeader.critical
      rw [hsv]
    · rw [hdec]
  · intro hv
    rcases hs : sGet h.sources "crit" with _ | sv
    · unfold JweHeader.critical
      rw [hs]
    · obtain ⟨v, hv2, -⟩ := (hcon "crit" (by decide)).2 sv hs
      rw [hv] at hv2
      cases hv2
  · intro v hv
    obtain ⟨sv, hsv, hdec⟩ := (hcon "jwk" (by decide)).1 v hv
    rcases sv with bs | bss | ss | j | t <;>
      rcases v with _ | b | n | s | vs | o <;> simp [SvDecodes] at hdec
    refine ⟨j, ?_, ?_⟩
    · unfold JweHeader.jwkClaim
      rw [hsv]
    · rw [hdec]
  · intro hv
    rcases hs : sGet h.sources "jwk" with _ | sv
    · unfold JweHeader.jwkClaim
      rw [hs]
    · obtain ⟨v, hv2, -⟩ := (hcon "jwk" (by decide)).2 sv hs
      rw [hv] at hv2
      cases hv2
  · intro v hv
    obtain ⟨sv, hsv, hdec⟩ := (hcon "x5c" (by decide)).1 v hv
    rcases sv with bs | bss | ss | j | t <;>
      rcases v with _ | b | n | s | vs | o <;> simp [SvDecodes] at hdec
    refine ⟨bss, vs, ?_, rfl, hdec⟩
    unfold JweHeader.x509CertificateChain
    rw [hsv]
  · intro hv
    rcases hs : sGet h.sources "x5c" with _ | sv
    · unfold JweHeader.x509CertificateChain
      rw [hs]
    · obtain ⟨v, hv2, -⟩ := (hcon "x5c" (by decide)).2 sv hs
      rw [hv] at hv2
      cases hv2
  · intro v hv
    obtain ⟨sv, hsv, hdec⟩ := (hcon "x5t" (by decide)).1 v hv
    rcases sv with bs | bss | ss | j | t <;>
      rcases v with _ | b | n | s | vs | o <;> simp [SvDecodes] at hdec
    refine ⟨bs, s, ?_, rfl, hdec⟩
    unfold JweHeader.x509Sha1
    rw [hsv]
  · intro hv
    rcases hs : sGet h.sources "x5t" with _ | sv
    · unfold JweHeader.x509Sha1
      rw [hs]
    · obtain ⟨v, hv2, -⟩ := (hcon "x5t" (by decide)).2 sv hs
      rw [hv] at hv2
      cases hv2
  · intro v hv
    obtain ⟨sv, hsv, hdec⟩ := (hcon "x5t#S256" (by decide)).1 v hv
    rcases sv with bs | bss | ss | j | t <;>
      rcases v with _ | b | n | s | vs | o <;> simp [SvDecodes] at hdec
    refine ⟨bs, s, ?_, rfl, hdec⟩
    unfold JweHeader.x509Sha256
    rw [hsv]
  · intro hv
    rcases hs : sGet h.sources "x5t#S256" with _ | sv
    · unfold JweHeader.x509Sha256
      rw [hs]
    · obtain ⟨v, hv2, -⟩ := (hcon "x5t#S256" (by decide)).2 sv hs
      rw [hv] at hv2
      cases hv2

/-- Witness for C3 (amended): the fresh header with crit set through the
typed setter — the invariant chain gives the accessor answer decoding
the raw claim. -/
theorem C3_witness :
    ∃ ss, (JweHeader.new.setCritical ["a"]).critical = .ok (some ss) ∧
      Json.arr [Json.str "a"] = Json.arr (ss.map Json.str) := by
  obtain ⟨ss, h1, h2⟩ :=
    (C3_dual_cache_invariant.2.2.2.2.2.2.2 (JweHeader.new.setCritical ["a"])
      (C3_dual_cache_invariant.2.2.2.2.2.1 JweHeader.new ["a"]
        C3_dual_cache_invariant.1)).1
      (Json.arr [Json.str "a"]) (by decide)
  exact ⟨ss, h1, by simpa using h2⟩

end Josekit
